import Mathlib

/-!
Verification of the builder-cli credential lifecycle and request-authorization
core against its natural-language specification.

The definitions below are a shallow embedding of the TypeScript sources:
  * `src/lib/config.ts`   — persisted credential record, token validity,
    key resolution, encrypted-key storage, exit codes;
  * `src/lib/crypto.ts`   — AES-256-GCM private-key encryption under a
    scrypt-derived key;
  * `src/lib/wallet.ts`   — key normalization and address derivation
    (secp256k1 + keccak-256, as performed by `ethers.Wallet`);
  * the API layer of `src/lib/wallet.ts`/`api.ts` — `parseRetryAfter`,
    `apiRequest` header construction.

Platform builtins used by the source (Node's `crypto`, `Buffer`, JavaScript
`Date`, `parseInt`, string falsiness) are modelled by explicit executable Lean
functions; each model's doc comment states what it models and any restriction.
Randomness consumed by the source (`randomBytes`) is made explicit: the random
salt/IV are parameters of the embedded functions.  Machine integers are
modelled as `Nat`/`Int` with explicit `% 2 ^ w` where overflow matters.
-/

/-! ## Bytes and hex encoding -/

/-- Big-endian byte decomposition of a natural number into exactly `k` bytes
(the most significant byte first); every produced byte is `< 256`. -/
def natToBytesBE : Nat → Nat → List Nat
  | 0, _ => []
  | k + 1, n => n / 256 ^ k % 256 :: natToBytesBE k n

/-- Big-endian recomposition of a byte list into a natural number. -/
def bytesToNatBE (bs : List Nat) : Nat :=
  bs.foldl (fun acc b => acc * 256 + b) 0

/-- Lowercase hex digit for a value `< 16` (the encoding used by
`Buffer.toString('hex')`). -/
def hexDigitChar (n : Nat) : Char :=
  if n < 10 then Char.ofNat (48 + n) else Char.ofNat (87 + n)

/-- Lowercase hex encoding of a byte list, as a list of characters
(model of `Buffer.toString('hex')`). -/
def hexChars : List Nat → List Char
  | [] => []
  | b :: bs => hexDigitChar (b / 16 % 16) :: hexDigitChar (b % 16) :: hexChars bs

/-- Lowercase hex encoding of a byte list as a `String`. -/
def hexStr (bs : List Nat) : String :=
  String.mk (hexChars bs)

/-- Numeric value of a hex digit character, if it is one
(both cases accepted, as `Buffer.from(_, 'hex')` does). -/
def hexCharVal (c : Char) : Option Nat :=
  if '0' ≤ c ∧ c ≤ '9' then some (c.toNat - 48)
  else if 'a' ≤ c ∧ c ≤ 'f' then some (c.toNat - 87)
  else if 'A' ≤ c ∧ c ≤ 'F' then some (c.toNat - 55)
  else none

/-- Model of Node's `Buffer.from(s, 'hex')`: decode hex pairs from the left,
stopping (without error) at the first character pair that is not valid hex or
at a trailing lone digit. -/
def jsHexDecodeChars : List Char → List Nat
  | c1 :: c2 :: rest =>
    match hexCharVal c1, hexCharVal c2 with
    | some h, some l => (h * 16 + l) :: jsHexDecodeChars rest
    | _, _ => []
  | _ => []

/-- Model of `Buffer.from(s, 'hex')` on a `String`. -/
def jsHexDecode (s : String) : List Nat :=
  jsHexDecodeChars s.data

/-! ## JavaScript string falsiness -/

/-- Model of JavaScript falsiness for an optional string field: `undefined`
and the empty string are falsy, every other string is truthy. -/
def jsFalsy : Option String → Bool
  | none => true
  | some s => s = ""

/-! ## JavaScript `Date` model -/

/-- Is the character an ASCII decimal digit? -/
def isDigitChar (c : Char) : Bool :=
  '0' ≤ c ∧ c ≤ '9'

/-- Value of an ASCII decimal digit. -/
def digitVal (c : Char) : Nat :=
  c.toNat - 48

/-- Two-digit decimal value. -/
def twoDigits (c1 c2 : Char) : Option Nat :=
  if isDigitChar c1 ∧ isDigitChar c2 then some (digitVal c1 * 10 + digitVal c2)
  else none

/-- Four-digit decimal value. -/
def fourDigits (c1 c2 c3 c4 : Char) : Option Nat :=
  if isDigitChar c1 ∧ isDigitChar c2 ∧ isDigitChar c3 ∧ isDigitChar c4 then
    some (((digitVal c1 * 10 + digitVal c2) * 10 + digitVal c3) * 10 + digitVal c4)
  else none

/-- Month number (1-12) of a three-letter English month abbreviation. -/
def monthOfAbbrev : List Char → Option Nat
  | ['J', 'a', 'n'] => some 1
  | ['F', 'e', 'b'] => some 2
  | ['M', 'a', 'r'] => some 3
  | ['A', 'p', 'r'] => some 4
  | ['M', 'a', 'y'] => some 5
  | ['J', 'u', 'n'] => some 6
  | ['J', 'u', 'l'] => some 7
  | ['A', 'u', 'g'] => some 8
  | ['S', 'e', 'p'] => some 9
  | ['O', 'c', 't'] => some 10
  | ['N', 'o', 'v'] => some 11
  | ['D', 'e', 'c'] => some 12
  | _ => none

/-- Is the three-letter token an English weekday abbreviation? -/
def isWeekdayAbbrev (cs : List Char) : Bool :=
  cs = ['M', 'o', 'n'] ∨ cs = ['T', 'u', 'e'] ∨ cs = ['W', 'e', 'd'] ∨
  cs = ['T', 'h', 'u'] ∨ cs = ['F', 'r', 'i'] ∨ cs = ['S', 'a', 't'] ∨
  cs = ['S', 'u', 'n']

/-- Leap years (proleptic Gregorian) strictly before year `y`, counted from
year 1; used to turn a civil date into a day count. -/
def leapsBefore (y : Nat) : Nat :=
  (y - 1) / 4 - (y - 1) / 100 + (y - 1) / 400

/-- Is `y` a Gregorian leap year? -/
def isLeapYear (y : Nat) : Bool :=
  (y % 4 = 0 ∧ y % 100 ≠ 0) ∨ y % 400 = 0

/-- Days in the months preceding month `m` (1-12) of a non-leap year. -/
def monthDayOffset : Nat → Nat
  | 1 => 0
  | 2 => 31
  | 3 => 59
  | 4 => 90
  | 5 => 120
  | 6 => 151
  | 7 => 181
  | 8 => 212
  | 9 => 243
  | 10 => 273
  | 11 => 304
  | 12 => 334
  | _ => 0

/-- Days from 1970-01-01 to the civil date `y-m-d` (UTC), for `y ≥ 1970`. -/
def daysFromEpoch (y m d : Nat) : Nat :=
  365 * (y - 1970) + (leapsBefore y - leapsBefore 1970) + monthDayOffset m +
    (if isLeapYear y ∧ m > 2 then 1 else 0) + (d - 1)

/-- Milliseconds since the Unix epoch of `y-m-d h:mi:s.ms` UTC, with field
range validation (`y ≥ 1970`, `1 ≤ m ≤ 12`, `1 ≤ d ≤ 31`, `h < 24`,
`mi < 60`, `s < 60`). -/
def utcMillis (y m d h mi s ms : Nat) : Option Int :=
  if 1970 ≤ y ∧ 1 ≤ m ∧ m ≤ 12 ∧ 1 ≤ d ∧ d ≤ 31 ∧ h < 24 ∧ mi < 60 ∧ s < 60 then
    some ((((daysFromEpoch y m d * 24 + h) * 60 + mi) * 60 + s : Nat) * 1000 + ms)
  else
    none

/-- RFC-1123 timestamp parse, e.g. `Fri, 06 Feb 2026 12:00:00 GMT`. -/
def parseRfc1123 (cs : List Char) : Option Int :=
  match cs with
  | w1 :: w2 :: w3 :: ',' :: ' ' :: d1 :: d2 :: ' ' :: m1 :: m2 :: m3 :: ' ' ::
      y1 :: y2 :: y3 :: y4 :: ' ' :: h1 :: h2 :: ':' :: n1 :: n2 :: ':' ::
      s1 :: s2 :: ' ' :: 'G' :: 'M' :: 'T' :: [] =>
    if isWeekdayAbbrev [w1, w2, w3] then
      match monthOfAbbrev [m1, m2, m3], twoDigits d1 d2, fourDigits y1 y2 y3 y4,
          twoDigits h1 h2, twoDigits n1 n2, twoDigits s1 s2 with
      | some m, some d, some y, some h, some mi, some s => utcMillis y m d h mi s 0
      | _, _, _, _, _, _ => none
    else none
  | _ => none

/-- ISO-8601 UTC timestamp parse, `YYYY-MM-DDTHH:MM:SSZ` with optional
millisecond part `.mmm`. -/
def parseIso8601 (cs : List Char) : Option Int :=
  match cs with
  | y1 :: y2 :: y3 :: y4 :: '-' :: m1 :: m2 :: '-' :: d1 :: d2 :: 'T' ::
      h1 :: h2 :: ':' :: n1 :: n2 :: ':' :: s1 :: s2 :: rest =>
    match fourDigits y1 y2 y3 y4, twoDigits m1 m2, twoDigits d1 d2,
        twoDigits h1 h2, twoDigits n1 n2, twoDigits s1 s2 with
    | some y, some m, some d, some h, some mi, some s =>
      match rest with
      | ['Z'] => utcMillis y m d h mi s 0
      | ['.', f1, f2, f3, 'Z'] =>
        if isDigitChar f1 ∧ isDigitChar f2 ∧ isDigitChar f3 then
          utcMillis y m d h mi s ((digitVal f1 * 10 + digitVal f2) * 10 + digitVal f3)
        else none
      | _ => none
    | _, _, _, _, _, _ => none
  | _ => none

/-- Model of the JavaScript `new Date(string)` parser, restricted to the two
timestamp shapes relevant here: RFC-1123 dates (the HTTP-date form of
`Retry-After`) and ISO-8601 UTC timestamps (the form the API returns for
session expiry).  `none` models an Invalid Date (`getTime()` is `NaN`);
the result is milliseconds since the Unix epoch. -/
def jsDateParse (s : String) : Option Int :=
  match parseRfc1123 s.data with
  | some t => some t
  | none => parseIso8601 s.data

/-! ## UTF-8 codec (model of Node's `'utf8'` encoding) -/

/-- UTF-8 encoding of a Unicode scalar value. -/
def utf8EncodeCp (c : Nat) : List Nat :=
  if c < 0x80 then [c]
  else if c < 0x800 then [0xC0 + c / 64, 0x80 + c % 64]
  else if c < 0x10000 then [0xE0 + c / 4096, 0x80 + c / 64 % 64, 0x80 + c % 64]
  else [0xF0 + c / 262144, 0x80 + c / 4096 % 64, 0x80 + c / 64 % 64, 0x80 + c % 64]

/-- UTF-8 byte sequence of a string (model of `Buffer.from(s, 'utf8')`). -/
def utf8Encode (s : String) : List Nat :=
  s.data.flatMap (fun ch => utf8EncodeCp ch.toNat)

/-- The Unicode replacement character, emitted for malformed byte sequences. -/
def replChar : Char := Char.ofNat 0xFFFD

/-- Is the byte a UTF-8 continuation byte (`10xxxxxx`)? -/
def isContByte (b : Nat) : Bool :=
  0x80 ≤ b ∧ b < 0xC0

/-- Lossy UTF-8 decoder (model of `Buffer.toString('utf8')`, which never
throws and substitutes U+FFFD for malformed sequences).  The first argument
is structural fuel, one unit per decoded character; `utf8Decode` supplies
the byte count, which suffices. -/
def utf8DecodeAux : Nat → List Nat → List Char
  | 0, _ => []
  | _ + 1, [] => []
  | fuel + 1, b :: rest =>
    if b < 0x80 then Char.ofNat b :: utf8DecodeAux fuel rest
    else if b < 0xC2 then replChar :: utf8DecodeAux fuel rest
    else if b < 0xE0 then
      match rest with
      | b2 :: rest2 =>
        if isContByte b2 then
          Char.ofNat ((b - 0xC0) * 64 + (b2 - 0x80)) :: utf8DecodeAux fuel rest2
        else replChar :: utf8DecodeAux fuel rest
      | [] => [replChar]
    else if b < 0xF0 then
      match rest with
      | b2 :: b3 :: rest3 =>
        if isContByte b2 ∧ isContByte b3 ∧
            0x800 ≤ (b - 0xE0) * 4096 + (b2 - 0x80) * 64 + (b3 - 0x80) ∧
            ¬ (0xD800 ≤ (b - 0xE0) * 4096 + (b2 - 0x80) * 64 + (b3 - 0x80) ∧
               (b - 0xE0) * 4096 + (b2 - 0x80) * 64 + (b3 - 0x80) ≤ 0xDFFF) then
          Char.ofNat ((b - 0xE0) * 4096 + (b2 - 0x80) * 64 + (b3 - 0x80)) ::
            utf8DecodeAux fuel rest3
        else replChar :: utf8DecodeAux fuel rest
      | _ => [replChar]
    else if b < 0xF5 then
      match rest with
      | b2 :: b3 :: b4 :: rest4 =>
        if isContByte b2 ∧ isContByte b3 ∧ isContByte b4 ∧
            0x10000 ≤ (b - 0xF0) * 262144 + (b2 - 0x80) * 4096 + (b3 - 0x80) * 64 + (b4 - 0x80) ∧
            (b - 0xF0) * 262144 + (b2 - 0x80) * 4096 + (b3 - 0x80) * 64 + (b4 - 0x80) < 0x110000 then
          Char.ofNat
              ((b - 0xF0) * 262144 + (b2 - 0x80) * 4096 + (b3 - 0x80) * 64 + (b4 - 0x80)) ::
            utf8DecodeAux fuel rest4
        else replChar :: utf8DecodeAux fuel rest
      | _ => [replChar]
    else replChar :: utf8DecodeAux fuel rest

/-- Lossy UTF-8 decode of a byte list to a list of characters. -/
def utf8Decode (bs : List Nat) : List Char :=
  utf8DecodeAux bs.length bs

/-! ## SHA-256, HMAC, PBKDF2 and scrypt (model of Node's `scryptSync`) -/

/-- Little-endian byte decomposition into exactly `k` bytes. -/
def natToBytesLE : Nat → Nat → List Nat
  | 0, _ => []
  | k + 1, n => n % 256 :: natToBytesLE k (n / 256)

/-- Little-endian recomposition of a byte list. -/
def bytesToNatLE : List Nat → Nat
  | [] => 0
  | b :: bs => b + 256 * bytesToNatLE bs

/-- 32-bit right rotation. -/
def rotr32 (n x : Nat) : Nat :=
  ((x >>> n) ||| ((x <<< (32 - n)) % 2 ^ 32)) % 2 ^ 32

/-- 32-bit left rotation. -/
def rotl32 (n x : Nat) : Nat :=
  (((x <<< n) % 2 ^ 32) ||| (x >>> (32 - n))) % 2 ^ 32

/-- 32-bit complement. -/
def not32 (x : Nat) : Nat :=
  (2 ^ 32 - 1) ^^^ (x % 2 ^ 32)

/-- Trial-division primality, used only to generate the SHA-256 constants. -/
def isPrimeNat (n : Nat) : Bool :=
  2 ≤ n ∧ (List.range n).all (fun d => d < 2 ∨ n % d ≠ 0)

/-- The first `count` primes (the 64th prime is 311, so scanning to 400
suffices for every use here). -/
def firstPrimes (count : Nat) : List Nat :=
  ((List.range 400).filter isPrimeNat).take count

/-- Binary search for the integer cube root (largest `x` with `x^3 ≤ n`). -/
def cbrtSearch : Nat → Nat → Nat → Nat → Nat
  | 0, lo, _, _ => lo
  | f + 1, lo, hi, n =>
    if lo + 1 ≥ hi then lo
    else
      let mid := (lo + hi) / 2
      if mid ^ 3 ≤ n then cbrtSearch f mid hi n else cbrtSearch f lo mid n

/-- Integer cube root. -/
def icbrt (n : Nat) : Nat :=
  cbrtSearch 128 0 (n + 2) n

/-- The SHA-256 round constants (FIPS 180-4 §4.2.2), by their definition:
the first 32 fractional bits of the cube roots of the first 64 primes. -/
def sha256K : List Nat :=
  (firstPrimes 64).map (fun p => icbrt (p <<< 96) % 2 ^ 32)

/-- The SHA-256 initial hash value (FIPS 180-4 §5.3.3), by its definition:
the first 32 fractional bits of the square roots of the first 8 primes. -/
def sha256H0 : List Nat :=
  (firstPrimes 8).map (fun p => Nat.sqrt (p <<< 64) % 2 ^ 32)

/-- SHA-256 message padding: `0x80`, zeros, and the 64-bit bit length. -/
def sha256Pad (msg : List Nat) : List Nat :=
  msg ++ 0x80 :: List.replicate ((55 + 64 - msg.length % 64) % 64) 0 ++
    natToBytesBE 8 (msg.length * 8)

/-- Message-schedule extension step of SHA-256. -/
def sha256ExtendW : Nat → List Nat → List Nat
  | 0, w => w
  | f + 1, w =>
    let i := w.length
    let s0 := rotr32 7 (w.getD (i - 15) 0) ^^^ rotr32 18 (w.getD (i - 15) 0) ^^^
      (w.getD (i - 15) 0 >>> 3)
    let s1 := rotr32 17 (w.getD (i - 2) 0) ^^^ rotr32 19 (w.getD (i - 2) 0) ^^^
      (w.getD (i - 2) 0 >>> 10)
    sha256ExtendW f (w ++ [(w.getD (i - 16) 0 + s0 + w.getD (i - 7) 0 + s1) % 2 ^ 32])

/-- One SHA-256 round over the working state `[a, b, c, d, e, f, g, h]`. -/
def sha256Round (st : List Nat) (kw : Nat × Nat) : List Nat :=
  let a := st.getD 0 0
  let b := st.getD 1 0
  let c := st.getD 2 0
  let d := st.getD 3 0
  let e := st.getD 4 0
  let f := st.getD 5 0
  let g := st.getD 6 0
  let h := st.getD 7 0
  let bigS1 := rotr32 6 e ^^^ rotr32 11 e ^^^ rotr32 25 e
  let ch := (e &&& f) ^^^ (not32 e &&& g)
  let t1 := (h + bigS1 + ch + kw.1 + kw.2) % 2 ^ 32
  let bigS0 := rotr32 2 a ^^^ rotr32 13 a ^^^ rotr32 22 a
  let maj := (a &&& b) ^^^ (a &&& c) ^^^ (b &&& c)
  let t2 := (bigS0 + maj) % 2 ^ 32
  [(t1 + t2) % 2 ^ 32, a, b, c, (d + t1) % 2 ^ 32, e, f, g]

/-- SHA-256 compression of one 64-byte block into the chaining value. -/
def sha256Compress (hs block : List Nat) : List Nat :=
  let w0 := (List.range 16).map (fun i => bytesToNatBE ((block.drop (4 * i)).take 4))
  let w := sha256ExtendW 48 w0
  let st := (sha256K.zip w).foldl sha256Round hs
  (hs.zip st).map (fun p => (p.1 + p.2) % 2 ^ 32)

/-- Split a byte list into chunks of `size` bytes (fuel-driven; the fuel is
at least the list length wherever this is used). -/
def chunksOf (size : Nat) : Nat → List Nat → List (List Nat)
  | 0, _ => []
  | _, [] => []
  | f + 1, bs => bs.take size :: chunksOf size f (bs.drop size)

/-- SHA-256 of a byte list (FIPS 180-4). -/
def sha256 (msg : List Nat) : List Nat :=
  let padded := sha256Pad msg
  ((chunksOf 64 padded.length padded).foldl sha256Compress sha256H0).flatMap (natToBytesBE 4)

/-- HMAC-SHA-256 (RFC 2104). -/
def hmacSha256 (key msg : List Nat) : List Nat :=
  let k0 := if key.length > 64 then sha256 key else key
  let k := k0 ++ List.replicate (64 - k0.length) 0
  sha256 (k.map (fun b => b ^^^ 0x5c) ++ sha256 (k.map (fun b => b ^^^ 0x36) ++ msg))

/-- PBKDF2-HMAC-SHA-256 with iteration count 1 (the inner KDF of scrypt). -/
def pbkdf2Sha256One (pass salt : List Nat) (dkLen : Nat) : List Nat :=
  ((List.range (dkLen / 32 + 1)).flatMap
    (fun i => hmacSha256 pass (salt ++ natToBytesBE 4 (i + 1)))).take dkLen

/-- Salsa20 quarter-round applied at state indices `i0 i1 i2 i3`. -/
def salsaQR (s : List Nat) (i0 i1 i2 i3 : Nat) : List Nat :=
  let y0 := s.getD i0 0
  let y1 := s.getD i1 0
  let y2 := s.getD i2 0
  let y3 := s.getD i3 0
  let z1 := y1 ^^^ rotl32 7 ((y0 + y3) % 2 ^ 32)
  let z2 := y2 ^^^ rotl32 9 ((z1 + y0) % 2 ^ 32)
  let z3 := y3 ^^^ rotl32 13 ((z2 + z1) % 2 ^ 32)
  let z0 := y0 ^^^ rotl32 18 ((z3 + z2) % 2 ^ 32)
  (((s.set i0 z0).set i1 z1).set i2 z2).set i3 z3

/-- One Salsa20 double round (column round then row round). -/
def salsaDoubleRound (s : List Nat) : List Nat :=
  let c := salsaQR (salsaQR (salsaQR (salsaQR s 0 4 8 12) 5 9 13 1) 10 14 2 6) 15 3 7 11
  salsaQR (salsaQR (salsaQR (salsaQR c 0 1 2 3) 5 6 7 4) 10 11 8 9) 15 12 13 14

/-- The Salsa20/8 core on a 64-byte block (RFC 7914 §3). -/
def salsa208Core (inBytes : List Nat) : List Nat :=
  let x := (List.range 16).map (fun i => bytesToNatLE ((inBytes.drop (4 * i)).take 4))
  let z := salsaDoubleRound (salsaDoubleRound (salsaDoubleRound (salsaDoubleRound x)))
  ((x.zip z).map (fun p => (p.1 + p.2) % 2 ^ 32)).flatMap (natToBytesLE 4)

/-- Elements at even positions of a list. -/
def evenIdx {α : Type} : List α → List α
  | [] => []
  | [x] => [x]
  | x :: _ :: r => x :: evenIdx r

/-- Elements at odd positions of a list. -/
def oddIdx {α : Type} : List α → List α
  | [] => []
  | [_] => []
  | _ :: y :: r => y :: oddIdx r

/-- Inner loop of scryptBlockMix: thread `X` through Salsa20/8 over the
64-byte chunks, collecting the intermediate values. -/
def blockMixAux : List (List Nat) → List Nat → List (List Nat) → List (List Nat)
  | [], _, acc => acc.reverse
  | c :: cs, x, acc =>
    let x2 := salsa208Core (x.zipWith Nat.xor c)
    blockMixAux cs x2 (x2 :: acc)

/-- scryptBlockMix (RFC 7914 §4): output the even-indexed then odd-indexed
Salsa outputs. -/
def blockMix (bIn : List Nat) : List Nat :=
  let chunks := chunksOf 64 bIn.length bIn
  let ys := blockMixAux chunks (chunks.getLastD (List.replicate 64 0)) []
  (evenIdx ys ++ oddIdx ys).flatten

/-- First loop of scryptROMix: record `V_0 … V_{N-1}` and the final `X`. -/
def romixFill : Nat → List Nat → List (List Nat) × List Nat
  | 0, x => ([], x)
  | f + 1, x =>
    let r := romixFill f (blockMix x)
    (x :: r.1, r.2)

/-- Computes `Integerify(X) mod n`: the last 64-byte block of `X` as a little-endian
integer, reduced mod `n` (first eight bytes suffice for the power-of-two `n`
used here). -/
def integerify (x : List Nat) (n : Nat) : Nat :=
  bytesToNatLE ((x.drop (x.length - 64)).take 8) % n

/-- Second loop of scryptROMix. -/
def romixMix (vs : List (List Nat)) (n : Nat) : Nat → List Nat → List Nat
  | 0, x => x
  | f + 1, x =>
    let j := integerify x n
    romixMix vs n f (blockMix (x.zipWith Nat.xor (vs.getD j [])))

/-- scryptROMix (RFC 7914 §5) with cost parameter `n`. -/
def romix (n : Nat) (b : List Nat) : List Nat :=
  let r := romixFill n b
  romixMix r.1 n n r.2

/-- The scrypt KDF (RFC 7914 §6) over explicit byte parameters:
PBKDF2, ROMix with cost `n` on a block of `blockBytes` bytes, PBKDF2. -/
def scryptCompute (p salt : List Nat) (n blockBytes keyLen : Nat) : List Nat :=
  pbkdf2Sha256One p (romix n (pbkdf2Sha256One p salt blockBytes)) keyLen

/-- Model of Node's `crypto.scryptSync(passphrase, salt, keyLen)` with its
default parameters `N = 16384`, `r = 8`, `p = 1`; the passphrase string is
taken as its UTF-8 bytes. -/
def scryptSyncModel (passphrase : String) (salt : List Nat) (keyLen : Nat) : List Nat :=
  scryptCompute (utf8Encode passphrase) salt 16384 (128 * 8) keyLen

/-! ## AES-256-GCM (model of Node's `createCipheriv('aes-256-gcm', …)`) -/

/-- Doubling in GF(2^8) modulo the AES polynomial `x^8 + x^4 + x^3 + x + 1`. -/
def xtime (b : Nat) : Nat :=
  if b * 2 < 256 then b * 2 else (b * 2) ^^^ 0x11B

/-- Product in GF(2^8), by shift-and-add over the 8 bits of `b`. -/
def gfMulAux : Nat → Nat → Nat → Nat
  | 0, _, _ => 0
  | f + 1, a, b =>
    (if b % 2 = 1 then a else 0) ^^^ gfMulAux f (xtime a) (b / 2)

/-- Product in GF(2^8). -/
def gfMul (a b : Nat) : Nat :=
  gfMulAux 8 a b

/-- Power in GF(2^8). -/
def gfPow (a : Nat) : Nat → Nat
  | 0 => 1
  | n + 1 => gfMul a (gfPow a n)

/-- Multiplicative inverse in GF(2^8) (`a ^ 254`; 0 maps to 0). -/
def gfInv (a : Nat) : Nat :=
  gfPow a 254

/-- 8-bit left rotation. -/
def rotl8 (n x : Nat) : Nat :=
  (((x <<< n) % 256) ||| (x >>> (8 - n))) % 256

/-- The AES S-box, computed from its definition: the affine transform of the
GF(2^8) inverse (FIPS 197 §5.1.1). -/
def sboxOf (b : Nat) : Nat :=
  let i := gfInv b
  i ^^^ rotl8 1 i ^^^ rotl8 2 i ^^^ rotl8 3 i ^^^ rotl8 4 i ^^^ 0x63

/-- SubWord of the AES key schedule: the S-box on each byte of a 32-bit word. -/
def subWord (w : Nat) : Nat :=
  bytesToNatBE ((natToBytesBE 4 w).map sboxOf)

/-- RotWord of the AES key schedule. -/
def rotWord (w : Nat) : Nat :=
  ((w <<< 8) % 2 ^ 32) ||| (w >>> 24)

/-- AES round constants (as leading bytes of the Rcon words). -/
def rconVal : Nat → Nat
  | 1 => 0x01
  | 2 => 0x02
  | 3 => 0x04
  | 4 => 0x08
  | 5 => 0x10
  | 6 => 0x20
  | 7 => 0x40
  | _ => 0

/-- AES-256 key-schedule extension: grow the word list to 60 words. -/
def aesExpandAux : Nat → List Nat → List Nat
  | 0, ws => ws
  | f + 1, ws =>
    let i := ws.length
    let prev := ws.getD (i - 1) 0
    let t :=
      if i % 8 = 0 then subWord (rotWord prev) ^^^ (rconVal (i / 8) <<< 24)
      else if i % 8 = 4 then subWord prev
      else prev
    aesExpandAux f (ws ++ [ws.getD (i - 8) 0 ^^^ t])

/-- AES-256 key expansion of a 32-byte key into 60 schedule words. -/
def keyExpansion (key : List Nat) : List Nat :=
  aesExpandAux 52 ((List.range 8).map (fun i => bytesToNatBE ((key.drop (4 * i)).take 4)))

/-- The 16 round-key bytes of round `r` (state bytes in column-major order,
matching the order in which the input block fills the state). -/
def roundKeyBytes (ws : List Nat) (r : Nat) : List Nat :=
  (((ws.drop (4 * r)).take 4).map (natToBytesBE 4)).flatten

/-- AddRoundKey. -/
def addRoundKey (s rk : List Nat) : List Nat :=
  s.zipWith Nat.xor rk

/-- SubBytes. -/
def subBytes (s : List Nat) : List Nat :=
  s.map sboxOf

/-- ShiftRows on the 16-byte state in column-major order: the byte at row
`k % 4`, column `k / 4` comes from column `(k / 4 + k % 4) % 4`. -/
def shiftRows (s : List Nat) : List Nat :=
  (List.range 16).map (fun k => s.getD (4 * ((k / 4 + k % 4) % 4) + k % 4) 0)

/-- MixColumns on one 4-byte column. -/
def mixColumn (col : List Nat) : List Nat :=
  let a0 := col.getD 0 0
  let a1 := col.getD 1 0
  let a2 := col.getD 2 0
  let a3 := col.getD 3 0
  [gfMul 2 a0 ^^^ gfMul 3 a1 ^^^ a2 ^^^ a3,
   a0 ^^^ gfMul 2 a1 ^^^ gfMul 3 a2 ^^^ a3,
   a0 ^^^ a1 ^^^ gfMul 2 a2 ^^^ gfMul 3 a3,
   gfMul 3 a0 ^^^ a1 ^^^ a2 ^^^ gfMul 2 a3]

/-- MixColumns on the full state. -/
def mixColumns (s : List Nat) : List Nat :=
  ((List.range 4).map (fun c => mixColumn ((s.drop (4 * c)).take 4))).flatten

/-- AES-256 block encryption (FIPS 197): 14 rounds, the last one without
MixColumns. -/
def aes256Encrypt (key block : List Nat) : List Nat :=
  let ws := keyExpansion key
  let s0 := addRoundKey block (roundKeyBytes ws 0)
  let sMain := (List.range' 1 13).foldl
    (fun s r => addRoundKey (mixColumns (shiftRows (subBytes s))) (roundKeyBytes ws r)) s0
  addRoundKey (shiftRows (subBytes sMain)) (roundKeyBytes ws 14)

/-- AES-256 encryption of the 16-byte block with value `blockNat`, as a
128-bit natural number. -/
def aesBlockNat (key : List Nat) (blockNat : Nat) : Nat :=
  bytesToNatBE (aes256Encrypt key (natToBytesBE 16 blockNat))

/-- Product in GF(2^128) with the GCM reduction polynomial, processing the
bits of `x` from the most significant end (NIST SP 800-38D §6.3). -/
def gf128MulAux : Nat → Nat → Nat → Nat → Nat
  | 0, _, _, acc => acc
  | f + 1, x, v, acc =>
    let acc2 := if x / 2 ^ 127 % 2 = 1 then acc ^^^ v else acc
    let v2 := if v % 2 = 1 then (v >>> 1) ^^^ (0xe1 <<< 120) else v >>> 1
    gf128MulAux f ((x <<< 1) % 2 ^ 128) v2 acc2

/-- Product in GF(2^128). -/
def gf128Mul (x y : Nat) : Nat :=
  gf128MulAux 128 x y 0

/-- GHASH over a list of 128-bit blocks under hash subkey `h`. -/
def ghashBlocks (h : Nat) (blocks : List Nat) : Nat :=
  blocks.foldl (fun y b => gf128Mul ((y ^^^ b) % 2 ^ 128) h) 0

/-- Split a byte list into 128-bit block values, zero-padding the last
block on the right. -/
def chunk16Nat (bs : List Nat) : List Nat :=
  (chunksOf 16 bs.length bs).map (fun c => bytesToNatBE (c ++ List.replicate (16 - c.length) 0))

/-- The GCM hash subkey: the encryption of the zero block. -/
def ghashKey (key : List Nat) : Nat :=
  bytesToNatBE (aes256Encrypt key (List.replicate 16 0))

/-- The GCM pre-counter block `J0` (SP 800-38D §7.1): `IV ∥ 0^31 ∥ 1` for a
96-bit IV, and otherwise the GHASH of the padded IV and its bit length —
the case exercised here, since the source uses a 16-byte IV. -/
def gcmJ0 (h : Nat) (iv : List Nat) : Nat :=
  if iv.length = 12 then bytesToNatBE iv * 2 ^ 32 + 1
  else ghashBlocks h (chunk16Nat iv ++ [iv.length * 8 % 2 ^ 128])

/-- Increment the low 32 bits of a counter block. -/
def inc32 (x : Nat) : Nat :=
  x / 2 ^ 32 * 2 ^ 32 + (x + 1) % 2 ^ 32

/-- Generates `f` successive CTR keystream blocks, starting from `inc32 ctr`. -/
def ctrBlocks (key : List Nat) : Nat → Nat → List Nat
  | 0, _ => []
  | f + 1, ctr =>
    let c := inc32 ctr
    natToBytesBE 16 (aesBlockNat key c) ++ ctrBlocks key f c

/-- The first `n` bytes of the GCM CTR keystream for the given key and IV. -/
def gcmKeystream (key iv : List Nat) (n : Nat) : List Nat :=
  (ctrBlocks key (n / 16 + 1) (gcmJ0 (ghashKey key) iv)).take n

/-- GCM CTR transform of a byte list (both encryption and decryption:
an xor with the keystream). -/
def gcmCtr (key iv data : List Nat) : List Nat :=
  data.zipWith Nat.xor (gcmKeystream key iv data.length)

/-- The GCM authentication tag over a ciphertext (no associated data, as in
the source): `GHASH(C ∥ len) ⊕ E(K, J0)`. -/
def gcmTag (key iv ct : List Nat) : List Nat :=
  let h := ghashKey key
  let s := ghashBlocks h (chunk16Nat ct ++ [ct.length * 8 % 2 ^ 128])
  natToBytesBE 16 (s ^^^ aesBlockNat key (gcmJ0 h iv))

/-! ## The persisted credential record (`Config` of `src/lib/config.ts`) -/

/-- The persisted credential record, exactly the fields of the `Config`
interface of `src/lib/config.ts`.  Optional fields are `Option` (absent =
`undefined`); `environment` is a plain string as in the JSON document. -/
structure Config where
  jwtToken : Option String
  jwtExpiresAt : Option String
  environment : String
  apiUrl : Option String
  encryptedPrivateKey : Option String
  encryptionSalt : Option String
  encryptionIv : Option String
deriving Repr, DecidableEq

/-- The default record `loadConfig` returns when no state exists or the
persisted state is unparseable. -/
def defaultConfig : Config :=
  { jwtToken := none, jwtExpiresAt := none, environment := "prod", apiUrl := none,
    encryptedPrivateKey := none, encryptionSalt := none, encryptionIv := none }

/-- Embedding of `getValidJwtToken` (`src/lib/config.ts`): return the stored
JWT only while it is still valid.  `now` is the clock reading (`new Date()`)
in epoch milliseconds; the stored expiry string goes through the `Date`
parser, and — as in JavaScript, where every comparison against an Invalid
Date (`NaN`) is false — an unparseable expiry string fails the
`new Date() >= expiresAt` test and the token falls through. -/
def getValidJwtToken (now : Int) (cfg : Config) : Option String :=
  if jsFalsy cfg.jwtToken ∨ jsFalsy cfg.jwtExpiresAt then none
  else
    match jsDateParse (cfg.jwtExpiresAt.getD "") with
    | some expiresAt => if now ≥ expiresAt then none else cfg.jwtToken
    | none => cfg.jwtToken

/-- Embedding of `isLoggedIn` (`src/lib/config.ts`). -/
def isLoggedIn (now : Int) (cfg : Config) : Bool :=
  getValidJwtToken now cfg ≠ none

/-- Options accepted by the API-request helpers (`env`, `apiUrl`,
`jwtToken`), all optional. -/
structure ApiOptions where
  env : Option String
  apiUrl : Option String
  jwtToken : Option String
deriving Repr, DecidableEq

/-- Embedding of `getApiUrl` (`src/lib/config.ts`): explicit override first,
then the `env` option, the persisted environment, and the `prod` default,
each step skipping falsy values as `a || b` does. -/
def getApiUrl (opts : ApiOptions) (cfg : Config) : String :=
  if jsFalsy opts.apiUrl = false then opts.apiUrl.getD ""
  else
    let env := if jsFalsy opts.env = false then opts.env.getD ""
      else if cfg.environment ≠ "" then cfg.environment
      else "prod"
    match env with
    | "dev" => "https://dev-api.sequence.build"
    | _ => "https://api.sequence.build"

/-! ## Private-key encryption (`src/lib/crypto.ts`) -/

/-- The `EncryptedData` interface of `src/lib/crypto.ts`: hex ciphertext
joined with the hex auth tag by `':'`, hex salt, hex IV. -/
structure EncryptedData where
  encrypted : String
  salt : String
  iv : String
deriving Repr, DecidableEq

/-- Embedding of `encryptPrivateKey` (`src/lib/crypto.ts`): derive a 32-byte
key with scrypt from the passphrase and salt, encrypt the UTF-8 bytes of the
key with AES-256-GCM under the given IV, and hex-encode everything, joining
ciphertext and auth tag with `':'`.  The random salt (32 bytes) and IV
(16 bytes) drawn by `randomBytes` in the source are explicit parameters. -/
def encryptPrivateKey (privateKey passphrase : String) (saltBytes ivBytes : List Nat) :
    EncryptedData :=
  let key := scryptSyncModel passphrase saltBytes 32
  let ct := gcmCtr key ivBytes (utf8Encode privateKey)
  let tag := gcmTag key ivBytes ct
  { encrypted := hexStr ct ++ ":" ++ hexStr tag
    salt := hexStr saltBytes
    iv := hexStr ivBytes }

/-- Split a character list at its first `':'`: the part before it, and
`some` of everything after it (or `none` when there is no `':'`). -/
def breakColon : List Char → List Char × Option (List Char)
  | [] => ([], none)
  | c :: r =>
    if c = ':' then ([], some r)
    else
      let p := breakColon r
      (c :: p.1, p.2)

/-- Characters up to (excluding) the next `':'`. -/
def takeUntilColon : List Char → List Char
  | [] => []
  | c :: r => if c = ':' then [] else c :: takeUntilColon r

/-- Embedding of `decryptPrivateKey` (`src/lib/crypto.ts`): re-derive the key
from the passphrase and the stored salt, split ciphertext and auth tag at
`':'` (as `split(':')` destructured into two names takes the first two
segments), authenticate, and decrypt.  `none` models a thrown exception:
a missing tag segment (`Buffer.from(undefined)`), a tag that is not 16 bytes
(`setAuthTag`), an empty IV (`createDecipheriv`), or a tag mismatch
(`decipher.final()`).  Hex fields are decoded with `Buffer.from(_, 'hex')`
truncation semantics. -/
def decryptPrivateKey (data : EncryptedData) (passphrase : String) : Option String :=
  let saltBytes := jsHexDecode data.salt
  let ivBytes := jsHexDecode data.iv
  let key := scryptSyncModel passphrase saltBytes 32
  match breakColon data.encrypted.data with
  | (_, none) => none
  | (ctHex, some rest) =>
    let tagBytes := jsHexDecodeChars (takeUntilColon rest)
    if tagBytes.length ≠ 16 then none
    else if ivBytes.length = 0 then none
    else
      let ct := jsHexDecodeChars ctHex
      if gcmTag key ivBytes ct = tagBytes then
        some (String.mk (utf8Decode (gcmCtr key ivBytes ct)))
      else none

/-! ## Key resolution and encrypted-key storage (`src/lib/config.ts`) -/

/-- A partial update of the credential record, as passed to `updateConfig`. -/
structure ConfigPatch where
  jwtToken : Option String := none
  jwtExpiresAt : Option String := none
  environment : Option String := none
  apiUrl : Option String := none
  encryptedPrivateKey : Option String := none
  encryptionSalt : Option String := none
  encryptionIv : Option String := none
deriving Repr, DecidableEq

/-- Embedding of `updateConfig` (`src/lib/config.ts`): shallow merge — a
field present in the patch replaces the stored value wholesale, an omitted
field is preserved. -/
def updateConfig (cfg : Config) (p : ConfigPatch) : Config :=
  { jwtToken := p.jwtToken.orElse (fun _ => cfg.jwtToken)
    jwtExpiresAt := p.jwtExpiresAt.orElse (fun _ => cfg.jwtExpiresAt)
    environment := (p.environment.orElse (fun _ => some cfg.environment)).getD ""
    apiUrl := p.apiUrl.orElse (fun _ => cfg.apiUrl)
    encryptedPrivateKey := p.encryptedPrivateKey.orElse (fun _ => cfg.encryptedPrivateKey)
    encryptionSalt := p.encryptionSalt.orElse (fun _ => cfg.encryptionSalt)
    encryptionIv := p.encryptionIv.orElse (fun _ => cfg.encryptionIv) }

/-- Embedding of `storeEncryptedKey` (`src/lib/config.ts`): if the
`SEQUENCE_PASSPHRASE` environment variable (here the `passphrase` argument;
`none`/empty is falsy) is not set, do nothing and report `false`; otherwise
encrypt the key and persist ciphertext, salt and IV via `updateConfig`,
reporting `true`.  Returns the report flag and the persisted record. -/
def storeEncryptedKey (privateKey : String) (passphrase : Option String)
    (saltBytes ivBytes : List Nat) (cfg : Config) : Bool × Config :=
  if jsFalsy passphrase then (false, cfg)
  else
    let data := encryptPrivateKey privateKey (passphrase.getD "") saltBytes ivBytes
    (true, updateConfig cfg
      { encryptedPrivateKey := some data.encrypted
        encryptionSalt := some data.salt
        encryptionIv := some data.iv })

/-- The `INVALID_PRIVATE_KEY` member of `EXIT_CODES` (`src/lib/config.ts`). -/
def EXIT_CODE_INVALID_PRIVATE_KEY : Nat := 11

/-- The options record taken by `getPrivateKey`. -/
structure KeyOptions where
  privateKey : Option String
  json : Bool
deriving Repr, DecidableEq

/-- The two failure paths of `getPrivateKey`, distinguished exactly as the
source distinguishes them by the error it reports before exiting:
`decryptFailed` is the `Failed to decrypt stored key -- check
SEQUENCE_PASSPHRASE` report, `noKey` is the `No private key provided` one. -/
inductive KeyFailure where
  | decryptFailed
  | noKey
deriving Repr, DecidableEq

/-- Outcome of `getPrivateKey`: either a resolved key string, or process
termination (`process.exit`) with a failure report and exit code. -/
inductive KeyResolution where
  | resolved (key : String)
  | exited (failure : KeyFailure) (code : Nat)
deriving Repr, DecidableEq

/-- Embedding of `getPrivateKey` (`src/lib/config.ts`): an explicit (truthy)
`--private-key` option is returned as-is; otherwise, when all three encrypted
fields of the record and the passphrase are truthy, the stored key is
decrypted — a decryption failure exits with `INVALID_PRIVATE_KEY` after the
decryption-failure report; when nothing is available it exits with
`INVALID_PRIVATE_KEY` after the no-key report. -/
def getPrivateKey (opts : KeyOptions) (passphrase : Option String) (cfg : Config) :
    KeyResolution :=
  if jsFalsy opts.privateKey = false then .resolved (opts.privateKey.getD "")
  else if jsFalsy cfg.encryptedPrivateKey = false ∧ jsFalsy cfg.encryptionSalt = false ∧
      jsFalsy cfg.encryptionIv = false ∧ jsFalsy passphrase = false then
    match decryptPrivateKey
        { encrypted := cfg.encryptedPrivateKey.getD ""
          salt := cfg.encryptionSalt.getD ""
          iv := cfg.encryptionIv.getD "" } (passphrase.getD "") with
    | some key => .resolved key
    | none => .exited .decryptFailed EXIT_CODE_INVALID_PRIVATE_KEY
  else .exited .noKey EXIT_CODE_INVALID_PRIVATE_KEY

/-! ## Key normalization and validity (`src/lib/wallet.ts`) -/

/-- The `0x`-prefixing normalization step shared by the wallet helpers
(`if (!privateKey.startsWith('0x')) privateKey = '0x' + privateKey`). -/
def normalizePrivateKey (pk : String) : String :=
  match pk.data with
  | '0' :: 'x' :: _ => pk
  | _ => "0x" ++ pk

/-! ## Address derivation (model of `ethers.Wallet`: secp256k1 + keccak-256) -/

/-- The secp256k1 field prime. -/
def pSecp : Nat :=
  2 ^ 256 - 2 ^ 32 - 977

/-- The secp256k1 group order. -/
def nSecp : Nat :=
  0xFFFFFFFFFFFFFFFFFFFFFFFFFFFFFFFEBAAEDCE6AF48A03BBFD25E8CD0364141

/-- x-coordinate of the secp256k1 base point. -/
def gxSecp : Nat :=
  0x79BE667EF9DCBBAC55A06295CE870B07029BFCDB2DCE28D959F2815B16F81798

/-- y-coordinate of the secp256k1 base point. -/
def gySecp : Nat :=
  0x483ADA7726A3C4655DA4FBFC0E1108A8FD17B448A68554199C47D08FFB10D4B8

/-- Field multiplication mod the secp256k1 prime. -/
def fpMul (a b : Nat) : Nat :=
  a * b % pSecp

/-- Field subtraction mod the secp256k1 prime (operands already reduced). -/
def fpSub (a b : Nat) : Nat :=
  (a + pSecp - b % pSecp) % pSecp

/-- Modular exponentiation mod the secp256k1 prime, by structured squaring
with a fuel bound of 256 bits. -/
def fpPowAux : Nat → Nat → Nat → Nat
  | 0, _, _ => 1
  | f + 1, b, e =>
    let h := fpPowAux f (b * b % pSecp) (e / 2)
    if e % 2 = 1 then b * h % pSecp else h

/-- Field inverse mod the secp256k1 prime (Fermat). -/
def fpInv (a : Nat) : Nat :=
  fpPowAux 256 a (pSecp - 2)

/-- Doubling of a Jacobian point on secp256k1 (`a = 0`). -/
def jacDouble (pt : Nat × Nat × Nat) : Nat × Nat × Nat :=
  let x1 := pt.1
  let y1 := pt.2.1
  let z1 := pt.2.2
  let s := fpMul 4 (fpMul x1 (fpMul y1 y1))
  let m := fpMul 3 (fpMul x1 x1)
  let x3 := fpSub (fpMul m m) (fpMul 2 s)
  let y3 := fpSub (fpMul m (fpSub s x3)) (fpMul 8 (fpMul (fpMul y1 y1) (fpMul y1 y1)))
  (x3, y3, fpMul 2 (fpMul y1 z1))

/-- Mixed addition of a Jacobian point and the affine point `(x2, y2)`. -/
def jacAddMixed (pt : Nat × Nat × Nat) (x2 y2 : Nat) : Nat × Nat × Nat :=
  let x1 := pt.1
  let y1 := pt.2.1
  let z1 := pt.2.2
  if z1 = 0 then (x2, y2, 1)
  else
    let z1z1 := fpMul z1 z1
    let u2 := fpMul x2 z1z1
    let s2 := fpMul y2 (fpMul z1 z1z1)
    if u2 = x1 then
      if s2 = y1 then jacDouble pt else (0, 1, 0)
    else
      let h := fpSub u2 x1
      let hh := fpMul h h
      let hhh := fpMul h hh
      let r := fpSub s2 y1
      let v := fpMul x1 hh
      let x3 := fpSub (fpSub (fpMul r r) hhh) (fpMul 2 v)
      (x3, fpSub (fpMul r (fpSub v x3)) (fpMul y1 hhh), fpMul z1 h)

/-- The bits of `k`, most significant first, over a window of `w` bits. -/
def natBitsBE (w k : Nat) : List Bool :=
  (List.range w).map (fun i => k / 2 ^ (w - 1 - i) % 2 = 1)

/-- One double-and-add step of the base-point scalar multiplication. -/
def scalarStep (acc : Nat × Nat × Nat) (bit : Bool) : Nat × Nat × Nat :=
  let d := jacDouble acc
  if bit then jacAddMixed d gxSecp gySecp else d

/-- Scalar multiple `k · G` of the secp256k1 base point, by double-and-add
over the 256 bits of `k`, in Jacobian coordinates. -/
def scalarMulG (k : Nat) : Nat × Nat × Nat :=
  (natBitsBE 256 k).foldl scalarStep (0, 1, 0)

/-- The affine public key of the scalar `k`. -/
def pubkeyOf (k : Nat) : Nat × Nat :=
  let pt := scalarMulG k
  let zi := fpInv pt.2.2
  let zi2 := fpMul zi zi
  (fpMul pt.1 zi2, fpMul pt.2.1 (fpMul zi2 zi))

/-- 64-bit left rotation. -/
def rotl64 (n x : Nat) : Nat :=
  (((x <<< n) % 2 ^ 64) ||| (x >>> (64 - n))) % 2 ^ 64

/-- 64-bit complement. -/
def not64 (x : Nat) : Nat :=
  (2 ^ 64 - 1) ^^^ (x % 2 ^ 64)

/-- Bit `t` of the Keccak round-constant LFSR sequence (FIPS 202 §3.2.5),
computed by stepping the degree-8 LFSR `t mod 255` times. -/
def keccakRcStep : Nat → Nat → Nat
  | 0, r => r
  | f + 1, r =>
    let r2 := r <<< 1
    keccakRcStep f (if r2 ≥ 256 then r2 ^^^ 0x171 else r2)

/-- The bit `rc(t)` of FIPS 202. -/
def keccakRcBit (t : Nat) : Nat :=
  keccakRcStep (t % 255) 1 % 2

/-- The round constant of Keccak round `ir`, assembled from the LFSR bits at
positions `2^j - 1`. -/
def keccakRC (ir : Nat) : Nat :=
  (List.range 7).foldl (fun acc j => acc + keccakRcBit (j + 7 * ir) * 2 ^ (2 ^ j - 1)) 0

/-- The ρ rotation offsets as an association list from lane index `x + 5y`,
generated by the defining `(x, y) ← (y, 2x + 3y)` walk. -/
def rhoListAux : Nat → Nat → Nat → Nat → List (Nat × Nat)
  | 0, _, _, _ => []
  | f + 1, t, x, y => (x + 5 * y, (t + 1) * (t + 2) / 2 % 64) :: rhoListAux f (t + 1) y ((2 * x + 3 * y) % 5)

/-- The ρ rotation offset of the lane with index `i = x + 5y`. -/
def rotOf (i : Nat) : Nat :=
  ((rhoListAux 24 0 1 0).lookup i).getD 0

/-- Keccak θ step on the 25-lane state (lane `(x, y)` at index `x + 5y`). -/
def keccakTheta (a : List Nat) : List Nat :=
  let c := (List.range 5).map (fun x =>
    a.getD x 0 ^^^ a.getD (x + 5) 0 ^^^ a.getD (x + 10) 0 ^^^ a.getD (x + 15) 0 ^^^
      a.getD (x + 20) 0)
  let d := (List.range 5).map (fun x => c.getD ((x + 4) % 5) 0 ^^^ rotl64 1 (c.getD ((x + 1) % 5) 0))
  (List.range 25).map (fun i => a.getD i 0 ^^^ d.getD (i % 5) 0)

/-- Keccak ρ and π steps: the lane landing at `(X, Y)` comes from
`((X + 3Y) mod 5, X)`, rotated by its ρ offset. -/
def keccakRhoPi (a : List Nat) : List Nat :=
  (List.range 25).map (fun i =>
    let src := (i % 5 + 3 * (i / 5)) % 5 + 5 * (i % 5)
    rotl64 (rotOf src) (a.getD src 0))

/-- Keccak χ step. -/
def keccakChi (b : List Nat) : List Nat :=
  (List.range 25).map (fun i =>
    b.getD i 0 ^^^
      (not64 (b.getD ((i % 5 + 1) % 5 + 5 * (i / 5)) 0) &&&
        b.getD ((i % 5 + 2) % 5 + 5 * (i / 5)) 0))

/-- One Keccak-f round with round constant `rc`. -/
def keccakRound (a : List Nat) (rc : Nat) : List Nat :=
  let ch := keccakChi (keccakRhoPi (keccakTheta a))
  ch.set 0 (ch.getD 0 0 ^^^ rc)

/-- Keccak-f[1600]: 24 rounds. -/
def keccakF (a : List Nat) : List Nat :=
  ((List.range 24).map keccakRC).foldl keccakRound a

/-- Keccak padding at rate 136 bytes, with the original Keccak domain bits
(`0x01 … 0x80`) used by Ethereum — not the SHA-3 `0x06` variant. -/
def keccakPad (msg : List Nat) : List Nat :=
  let padLen := 136 - msg.length % 136
  msg ++ (if padLen = 1 then [0x81] else 0x01 :: (List.replicate (padLen - 2) 0 ++ [0x80]))

/-- Absorb one 136-byte block: xor its 17 little-endian lanes into the state
and permute. -/
def keccakAbsorb (st block : List Nat) : List Nat :=
  keccakF ((List.range 25).map (fun i =>
    st.getD i 0 ^^^ (if i < 17 then bytesToNatLE ((block.drop (8 * i)).take 8) else 0)))

/-- Keccak-256 of a byte list (the Ethereum hash). -/
def keccak256 (msg : List Nat) : List Nat :=
  let padded := keccakPad msg
  let st := (chunksOf 136 padded.length padded).foldl keccakAbsorb (List.replicate 25 0)
  ((List.range 4).map (fun i => natToBytesLE 8 (st.getD i 0))).flatten

/-- EIP-55 checksum casing of a 20-byte address: a lowercase hex digit is
uppercased when the corresponding nibble of the keccak-256 hash of the
lowercase hex string is at least 8. -/
def ethChecksumChars (addrBytes : List Nat) : List Char :=
  let hexCs := hexChars addrBytes
  let hh := keccak256 (hexCs.map Char.toNat)
  (List.range 40).map (fun i =>
    let c := hexCs.getD i '0'
    let nib := if i % 2 = 0 then hh.getD (i / 2) 0 / 16 else hh.getD (i / 2) 0 % 16
    if 'a' ≤ c ∧ c ≤ 'f' ∧ 8 ≤ nib then Char.ofNat (c.toNat - 32) else c)

/-- Parse a normalized private-key string into its scalar: after the
`0x`-prefixing step, the remainder must be exactly 64 hex digits and the
value must be a valid secp256k1 scalar (non-zero, below the group order) —
the checks `ethers.Wallet` performs before deriving an address. -/
def parseKeyScalar (privateKey : String) : Option Nat :=
  let hexPart := (normalizePrivateKey privateKey).data.drop 2
  if hexPart.length = 64 ∧ hexPart.all (fun c => (hexCharVal c).isSome) then
    let k := hexPart.foldl (fun acc c => acc * 16 + (hexCharVal c).getD 0) 0
    if k = 0 ∨ nSecp ≤ k then none else some k
  else none

/-- The EIP-55 address of the secp256k1 scalar `k`: keccak-256 of the
uncompressed public key, last 20 bytes, checksum-cased, `0x`-prefixed. -/
def addressOfScalar (k : Nat) : String :=
  let pub := pubkeyOf k
  let h := keccak256 (natToBytesBE 32 pub.1 ++ natToBytesBE 32 pub.2)
  String.mk ('0' :: 'x' :: ethChecksumChars (h.drop 12))

/-- Embedding of `getAddressFromPrivateKey` (`src/lib/wallet.ts`): prepend
`0x` when absent, then derive the EIP-55 checksummed address of the key as
`new ethers.Wallet(privateKey).address` does.  `none` models the exception
`ethers.Wallet` raises on a malformed or out-of-range key. -/
def getAddressFromPrivateKey (privateKey : String) : Option String :=
  match parseKeyScalar privateKey with
  | none => none
  | some k => some (addressOfScalar k)

/-- The scalar of the spec's known test vector
`ac0974bec39a17e36ba4a6b4d238ff944bacb478cbed5efcae784d7bf4f2ff80`. -/
def keyVector : Nat :=
  0xac0974bec39a17e36ba4a6b4d238ff944bacb478cbed5efcae784d7bf4f2ff80

/-! ## Retry-After parsing and the request dispatcher (`src/lib/wallet.ts`) -/

/-- Is the character JavaScript string whitespace (the kinds `parseInt`
skips)? -/
def jsWhitespace (c : Char) : Bool :=
  c = ' ' ∨ c = '\t' ∨ c = '\n' ∨ c = '\r' ∨ c = Char.ofNat 11 ∨ c = Char.ofNat 12

/-- Decimal value of the maximal digit run at the head of the list. -/
def digitsValAux : List Char → Nat → Nat
  | [], acc => acc
  | c :: r, acc =>
    if isDigitChar c then digitsValAux r (acc * 10 + digitVal c) else acc

/-- Does the list start with a decimal digit? -/
def startsDigit : List Char → Bool
  | [] => false
  | c :: _ => isDigitChar c

/-- Model of JavaScript `parseInt(s, 10)`: skip leading whitespace, read an
optional sign and then the maximal run of decimal digits; `none` models
`NaN` (no digits).  Arithmetic is exact where JavaScript numbers would lose
precision above `2^53`; the difference is immaterial for the header values
considered here. -/
def parseIntJS (s : String) : Option Int :=
  match s.data.dropWhile jsWhitespace with
  | '-' :: rest => if startsDigit rest then some (-(digitsValAux rest 0 : Int)) else none
  | '+' :: rest => if startsDigit rest then some (digitsValAux rest 0 : Int) else none
  | cs => if startsDigit cs then some (digitsValAux cs 0 : Int) else none

/-- Ceiling division of an integer by a positive integer. -/
def intCeilDiv (a b : Int) : Int :=
  Int.ediv (a + b - 1) b

/-- The HTTP-date fallback branch of `parseRetryAfter`: when the header
parses as a date, `max(0, ceil((date - now) / 1000))`, else `null`. -/
def parseRetryAfterDate (s : String) (now : Int) : Option Int :=
  match jsDateParse s with
  | some t => some (max 0 (intCeilDiv (t - now) 1000))
  | none => none

/-- Embedding of `parseRetryAfter` (`src/lib/wallet.ts`): a falsy header is
`null`; a header whose `parseInt` value is a non-negative integer gives that
many seconds; otherwise the HTTP-date fallback decides.  `now` is the clock
reading (`Date.now()`) in epoch milliseconds. -/
def parseRetryAfter (header : Option String) (now : Int) : Option Int :=
  match header with
  | none => none
  | some s =>
    if s = "" then none
    else
      match parseIntJS s with
      | some seconds => if seconds ≥ 0 then some seconds else parseRetryAfterDate s now
      | none => parseRetryAfterDate s now

/-- Stated from the spec's words, for comparison with the code: a
`Retry-After` value "is a non-negative integer" when it is a nonempty string
consisting solely of decimal digits. -/
def specIsNonNegInteger (s : String) : Bool :=
  s.data ≠ [] ∧ s.data.all isDigitChar

/-- A dispatched HTTP request, as constructed by `apiRequest` before `fetch`:
URL, method, header list, serialized body. -/
structure HttpRequest where
  url : String
  method : String
  headers : List (String × String)
  body : String
deriving Repr, DecidableEq

/-- Embedding of the request-construction part of `apiRequest`
(`src/lib/wallet.ts`): the Builder RPC URL, a `Content-Type` header, and an
`Authorization: Bearer` header exactly when `options?.jwtToken ||
getValidJwtToken()` is truthy.  The request is built and dispatched
unconditionally — there is no blocking path.  `bodyJson` stands for
`JSON.stringify(body)`. -/
def apiRequest (endpoint : String) (bodyJson : String) (opts : ApiOptions) (cfg : Config)
    (now : Int) : HttpRequest :=
  let url := getApiUrl opts cfg ++ "/rpc/Builder/" ++ endpoint
  let jwt := if jsFalsy opts.jwtToken = false then opts.jwtToken else getValidJwtToken now cfg
  let headers := [("Content-Type", "application/json")] ++
    (match jwt with
     | some t => [("Authorization", "Bearer " ++ t)]
     | none => [])
  { url := url, method := "POST", headers := headers, body := bodyJson }

/-! ## Claims about token validity (C1, C10) -/

/-- Claim C1: for every persisted credential record holding a bearer token
and an expiry that parses to the instant `t`, `getValidJwtToken` returns the
stored token if and only if the call instant `now` is strictly before `t`;
when `now` equals or exceeds `t` it returns `null`, treating an expired
token identically to no token. -/
theorem getValidJwtToken_strict_future (cfg : Config) (now : Int) (tok s : String) (t : Int)
    (htok : cfg.jwtToken = some tok) (htokNe : tok ≠ "")
    (hexp : cfg.jwtExpiresAt = some s) (hexpNe : s ≠ "")
    (hparse : jsDateParse s = some t) :
    (getValidJwtToken now cfg = some tok ↔ now < t) ∧
    (t ≤ now → getValidJwtToken now cfg = none) := by
  unfold getValidJwtToken
  rw [htok, hexp]
  rw [if_neg (by simp [jsFalsy, htokNe, hexpNe]), Option.getD_some, hparse]
  show ((if now ≥ t then (none : Option String) else some tok) = some tok ↔ now < t) ∧
    (t ≤ now → (if now ≥ t then (none : Option String) else some tok) = none)
  by_cases h : now ≥ t
  · rw [if_pos h]
    constructor
    · simp
      omega
    · intro _
      rfl
  · rw [if_neg h]
    refine ⟨by simp; omega, fun hle => absurd hle (by omega)⟩

/-- Witness for C1 at a concrete record: the token is returned just before
the recorded expiry instant and withheld at it. -/
theorem getValidJwtToken_strict_future_witness :
    (getValidJwtToken 1770379199999
        { defaultConfig with jwtToken := some "jwt-a", jwtExpiresAt := some "2026-02-06T12:00:00Z" } =
        some "jwt-a" ↔ (1770379199999 : Int) < 1770379200000) ∧
      ((1770379200000 : Int) ≤ 1770379199999 → getValidJwtToken 1770379199999
        { defaultConfig with jwtToken := some "jwt-a", jwtExpiresAt := some "2026-02-06T12:00:00Z" } =
        none) :=
  getValidJwtToken_strict_future _ 1770379199999 "jwt-a" "2026-02-06T12:00:00Z" 1770379200000
    rfl (by decide) rfl (by decide) (by decide)

/-- Claim C10: for every persisted record in which the bearer-token field or
the expiry field is absent, `getValidJwtToken` returns `null`, even when the
other field is present. -/
theorem getValidJwtToken_missing_field (cfg : Config) (now : Int)
    (h : cfg.jwtToken = none ∨ cfg.jwtExpiresAt = none) :
    getValidJwtToken now cfg = none := by
  unfold getValidJwtToken
  rcases h with h | h <;> rw [h] <;> simp [jsFalsy]

/-- Witness for C10: a record with an expiry but no token yields `null`. -/
theorem getValidJwtToken_missing_field_witness :
    getValidJwtToken 0 { defaultConfig with jwtExpiresAt := some "2026-02-06T12:00:00Z" } = none :=
  getValidJwtToken_missing_field _ 0 (Or.inl rfl)

/-! ## Claims about the credential resolver (C4, C5) -/

/-- Counterexample to claim C4 as stated: with the explicit key `"ab"` the
resolver returns `"ab"` itself, not its normalization `"0xab"` — the claim's
"normalizes that string and returns it" fails on the code, which returns the
explicit key unchanged. -/
theorem getPrivateKey_explicit_not_normalized :
    getPrivateKey { privateKey := some "ab", json := false } none defaultConfig =
      .resolved "ab" ∧
    normalizePrivateKey "ab" = "0xab" ∧ ("ab" : String) ≠ "0xab" := by
  refine ⟨rfl, rfl, ?_⟩
  decide

/-- Claim C4 as amended: with a (truthy) explicit private-key string the
resolver returns that string unchanged — with no normalization and no format
validation — and the result does not depend on the stored record or the
passphrase, so the stored encrypted key is never consulted or decrypted. -/
theorem getPrivateKey_explicit_returned_unchanged (pk : String) (json : Bool)
    (passphrase : Option String) (cfg : Config) (h : pk ≠ "") :
    getPrivateKey { privateKey := some pk, json := json } passphrase cfg = .resolved pk := by
  unfold getPrivateKey
  rw [if_pos (by simp [jsFalsy, h])]
  rfl

/-- Witness for amended C4: the explicit key `"ab"` is returned raw even
though the record also holds (decryptable-looking) encrypted-key fields and a
passphrase is present. -/
theorem getPrivateKey_explicit_returned_unchanged_witness :
    getPrivateKey { privateKey := some "ab", json := false } (some "pw")
      { defaultConfig with
        encryptedPrivateKey := some "00:00", encryptionSalt := some "ab",
        encryptionIv := some "cd" } =
      .resolved "ab" :=
  getPrivateKey_explicit_returned_unchanged "ab" false (some "pw") _ (by decide)

/-- Claim C5: with no explicit key, a truthy passphrase and all three stored
encrypted-key fields present, a decryption failure terminates the command
with the distinct decryption-failure report and the `INVALID_PRIVATE_KEY`
exit code: it does not fall through to the no-key outcome, and no key is
ever produced for later network use. -/
theorem getPrivateKey_decrypt_failure_exits (opts : KeyOptions) (cfg : Config)
    (pw e sa iv : String)
    (hopt : jsFalsy opts.privateKey = true)
    (henc : cfg.encryptedPrivateKey = some e) (hencNe : e ≠ "")
    (hsalt : cfg.encryptionSalt = some sa) (hsaltNe : sa ≠ "")
    (hiv : cfg.encryptionIv = some iv) (hivNe : iv ≠ "") (hpwNe : pw ≠ "")
    (hdec : decryptPrivateKey { encrypted := e, salt := sa, iv := iv } pw = none) :
    getPrivateKey opts (some pw) cfg = .exited .decryptFailed EXIT_CODE_INVALID_PRIVATE_KEY ∧
    KeyFailure.decryptFailed ≠ KeyFailure.noKey ∧
    (∀ k, getPrivateKey opts (some pw) cfg ≠ .resolved k) := by
  have hmain : getPrivateKey opts (some pw) cfg =
      .exited .decryptFailed EXIT_CODE_INVALID_PRIVATE_KEY := by
    unfold getPrivateKey
    rw [if_neg (by simp [hopt]), if_pos
      (by simp [jsFalsy, henc, hsalt, hiv, hencNe, hsaltNe, hivNe, hpwNe])]
    rw [henc, hsalt, hiv]
    simp only [Option.getD_some]
    rw [hdec]
  refine ⟨hmain, by decide, fun k hk => ?_⟩
  rw [hmain] at hk
  exact KeyResolution.noConfusion hk

/-- Witness for C5 at a concrete record whose stored bundle cannot be
decrypted (its `encrypted` field has no tag segment, so `decryptPrivateKey`
throws): the resolver exits with the decryption-failure report and code 11. -/
theorem getPrivateKey_decrypt_failure_exits_witness :
    getPrivateKey { privateKey := none, json := false } (some "pw")
        { defaultConfig with
          encryptedPrivateKey := some "00", encryptionSalt := some "ab",
          encryptionIv := some "cd" } =
      .exited .decryptFailed EXIT_CODE_INVALID_PRIVATE_KEY ∧
    KeyFailure.decryptFailed ≠ KeyFailure.noKey ∧
    (∀ k, getPrivateKey { privateKey := none, json := false } (some "pw")
        { defaultConfig with
          encryptedPrivateKey := some "00", encryptionSalt := some "ab",
          encryptionIv := some "cd" } ≠ .resolved k) :=
  getPrivateKey_decrypt_failure_exits { privateKey := none, json := false } _
    "pw" "00" "ab" "cd" rfl rfl (by decide) rfl (by decide) rfl (by decide) (by decide) rfl

/-! ## Claim about the request dispatcher (C6) -/

/-- Claim C6: for every call the dispatcher issues (no caller in the
repository supplies the internal `jwtToken` override, so that option is
falsy), the `Authorization: Bearer` header is attached if and only if
`getValidJwtToken` is non-null; with no valid token the request is still
constructed and sent — same URL and method, just without the header. -/
theorem apiRequest_auth_header_iff (endpoint bodyJson : String) (opts : ApiOptions)
    (cfg : Config) (now : Int) (h : jsFalsy opts.jwtToken = true) :
    ((apiRequest endpoint bodyJson opts cfg now).headers.any
        (fun hd => hd.1 = "Authorization") = true ↔
      getValidJwtToken now cfg ≠ none) ∧
    (getValidJwtToken now cfg = none →
      (apiRequest endpoint bodyJson opts cfg now).headers =
        [("Content-Type", "application/json")]) ∧
    (apiRequest endpoint bodyJson opts cfg now).url =
      getApiUrl opts cfg ++ "/rpc/Builder/" ++ endpoint ∧
    (apiRequest endpoint bodyJson opts cfg now).method = "POST" := by
  unfold apiRequest
  rw [if_neg (by simp [h])]
  cases hjwt : getValidJwtToken now cfg <;> simp [hjwt]

/-- Witness for C6 on a concrete logged-out record: the request goes out
with only the content-type header, to the production Builder URL. -/
theorem apiRequest_auth_header_iff_witness :
    ((apiRequest "ListProjects" "" { env := none, apiUrl := none, jwtToken := none }
        defaultConfig 0).headers.any (fun hd => hd.1 = "Authorization") = true ↔
      getValidJwtToken 0 defaultConfig ≠ none) ∧
    (getValidJwtToken 0 defaultConfig = none →
      (apiRequest "ListProjects" "" { env := none, apiUrl := none, jwtToken := none }
        defaultConfig 0).headers = [("Content-Type", "application/json")]) ∧
    (apiRequest "ListProjects" "" { env := none, apiUrl := none, jwtToken := none }
        defaultConfig 0).url =
      getApiUrl { env := none, apiUrl := none, jwtToken := none } defaultConfig ++
        "/rpc/Builder/" ++ "ListProjects" ∧
    (apiRequest "ListProjects" "" { env := none, apiUrl := none, jwtToken := none }
        defaultConfig 0).method = "POST" :=
  apiRequest_auth_header_iff "ListProjects" "" _ defaultConfig 0 rfl

/-! ## Length and encoding lemmas for the cipher glue -/

/-- Byte decomposition produces exactly `k` bytes. -/
theorem length_natToBytesBE (k n : Nat) : (natToBytesBE k n).length = k := by
  induction k generalizing n with
  | zero => rfl
  | succ k ih => simp [natToBytesBE, ih]

/-- Every byte of a byte decomposition is below 256. -/
theorem mem_natToBytesBE_lt (k n : Nat) : ∀ b ∈ natToBytesBE k n, b < 256 := by
  induction k generalizing n with
  | zero => simp [natToBytesBE]
  | succ k ih =>
    intro b hb
    simp only [natToBytesBE, List.mem_cons] at hb
    rcases hb with h | h
    · subst h
      exact Nat.mod_lt _ (by norm_num)
    · exact ih n b h

/-- Hex encoding doubles the length. -/
theorem length_hexChars (bs : List Nat) : (hexChars bs).length = 2 * bs.length := by
  induction bs with
  | nil => rfl
  | cons b bs ih => simp [hexChars, ih]; omega

/-- The data of the colon-joined bundle string. -/
theorem data_mk_colon_mk (a b : List Char) :
    (String.mk a ++ ":" ++ String.mk b).data = a ++ ':' :: b := by
  rw [show (String.mk a ++ ":" ++ String.mk b).data = (a ++ [':']) ++ b from rfl,
    List.append_assoc]
  rfl

/-- The authentication tag is 16 bytes. -/
theorem length_gcmTag (key iv ct : List Nat) : (gcmTag key iv ct).length = 16 := by
  unfold gcmTag
  exact length_natToBytesBE 16 _

/-- The CTR block generator yields `16 * f` bytes. -/
theorem length_ctrBlocks (key : List Nat) (f ctr : Nat) :
    (ctrBlocks key f ctr).length = 16 * f := by
  induction f generalizing ctr with
  | zero => rfl
  | succ f ih => simp [ctrBlocks, length_natToBytesBE, ih]; omega

/-- The keystream has exactly the requested length. -/
theorem length_gcmKeystream (key iv : List Nat) (n : Nat) :
    (gcmKeystream key iv n).length = n := by
  unfold gcmKeystream
  rw [List.length_take, length_ctrBlocks]
  omega

/-- The CTR transform preserves length. -/
theorem length_gcmCtr (key iv d : List Nat) : (gcmCtr key iv d).length = d.length := by
  unfold gcmCtr
  rw [List.length_zipWith, length_gcmKeystream]
  omega

/-- Each scalar encodes to at least one UTF-8 byte. -/
theorem utf8EncodeCp_length_pos (n : Nat) : 1 ≤ (utf8EncodeCp n).length := by
  unfold utf8EncodeCp
  split
  · simp
  · split
    · simp
    · split <;> simp

/-- A string has at least as many UTF-8 bytes as characters. -/
theorem length_utf8Encode_ge (s : String) : s.data.length ≤ (utf8Encode s).length := by
  unfold utf8Encode
  induction s.data with
  | nil => simp
  | cons c cs ih =>
    simp only [List.flatMap_cons, List.length_append, List.length_cons]
    have := utf8EncodeCp_length_pos c.toNat
    omega

/-! ## Claim about encrypted-key persistence (C7) -/

/-- Claim C7: an execution of `storeEncryptedKey` with a truthy passphrase
writes exactly the three encryption outputs — the colon-joined
ciphertext-with-tag, the hex salt and the hex IV — into the record, leaves
every other field unchanged, and what lands in the ciphertext field is never
the raw key itself; with no passphrase nothing at all is written. -/
theorem storeEncryptedKey_writes_only_cipher_fields (pk pw : String)
    (saltBytes ivBytes : List Nat) (cfg : Config) (h : pw ≠ "") :
    storeEncryptedKey pk (some pw) saltBytes ivBytes cfg =
      (true, { cfg with
        encryptedPrivateKey := some (encryptPrivateKey pk pw saltBytes ivBytes).encrypted
        encryptionSalt := some (encryptPrivateKey pk pw saltBytes ivBytes).salt
        encryptionIv := some (encryptPrivateKey pk pw saltBytes ivBytes).iv }) ∧
    (encryptPrivateKey pk pw saltBytes ivBytes).encrypted ≠ pk ∧
    storeEncryptedKey pk none saltBytes ivBytes cfg = (false, cfg) := by
  refine ⟨?_, ?_, rfl⟩
  · unfold storeEncryptedKey
    rw [if_neg (by simp [jsFalsy, h])]
    rfl
  · intro heq
    have hdata := congrArg String.data heq
    have hct : (encryptPrivateKey pk pw saltBytes ivBytes).encrypted.data.length =
        2 * (utf8Encode pk).length + 33 := by
      show (hexStr (gcmCtr (scryptSyncModel pw saltBytes 32) ivBytes (utf8Encode pk)) ++ ":" ++
        hexStr (gcmTag (scryptSyncModel pw saltBytes 32) ivBytes
          (gcmCtr (scryptSyncModel pw saltBytes 32) ivBytes (utf8Encode pk)))).data.length =
        2 * (utf8Encode pk).length + 33
      simp only [hexStr]
      rw [data_mk_colon_mk]
      simp only [List.length_append, List.length_cons, length_hexChars, length_gcmTag,
        length_gcmCtr]
    rw [hdata] at hct
    have := length_utf8Encode_ge pk
    omega

/-- Witness for C7 at concrete inputs: only the three cipher fields change. -/
theorem storeEncryptedKey_writes_only_cipher_fields_witness :
    storeEncryptedKey "key" (some "pw") (List.replicate 32 1) (List.replicate 16 2)
        defaultConfig =
      (true, { defaultConfig with
        encryptedPrivateKey :=
          some (encryptPrivateKey "key" "pw" (List.replicate 32 1) (List.replicate 16 2)).encrypted
        encryptionSalt :=
          some (encryptPrivateKey "key" "pw" (List.replicate 32 1) (List.replicate 16 2)).salt
        encryptionIv :=
          some (encryptPrivateKey "key" "pw" (List.replicate 32 1) (List.replicate 16 2)).iv }) ∧
    (encryptPrivateKey "key" "pw" (List.replicate 32 1) (List.replicate 16 2)).encrypted ≠
      "key" ∧
    storeEncryptedKey "key" none (List.replicate 32 1) (List.replicate 16 2) defaultConfig =
      (false, defaultConfig) :=
  storeEncryptedKey_writes_only_cipher_fields "key" "pw" _ _ defaultConfig (by decide)

/-! ## Claims about Retry-After parsing (C8) -/

/-- On a spec-side non-negative integer header (nonempty, all digits),
`parseInt` reads exactly its decimal value. -/
theorem parseIntJS_digits (s : String) (h : specIsNonNegInteger s = true) :
    parseIntJS s = some (digitsValAux s.data 0 : Int) := by
  unfold specIsNonNegInteger at h
  simp only [Bool.and_eq_true, decide_eq_true_eq, List.all_eq_true] at h
  obtain ⟨hne, hall⟩ := h
  obtain ⟨c, cs, hcs⟩ : ∃ c cs, s.data = c :: cs := by
    cases hd : s.data with
    | nil => exact absurd hd hne
    | cons c cs => exact ⟨c, cs, rfl⟩
  have hc : isDigitChar c = true := hall c (by rw [hcs]; exact List.mem_cons_self ..)
  have hw : ¬ jsWhitespace c = true := by
    have hns : ¬ (c = ' ' ∨ c = '\t' ∨ c = '\n' ∨ c = '\r' ∨ c = Char.ofNat 11 ∨
        c = Char.ofNat 12) := by
      rintro (rfl | rfl | rfl | rfl | rfl | rfl) <;> exact absurd hc (by decide)
    simpa [jsWhitespace] using hns
  unfold parseIntJS
  rw [hcs, List.dropWhile_cons, if_neg hw]
  split
  · rename_i rest heq
    rw [show c = '-' from (List.cons.injEq .. ▸ heq).1] at hc
    exact absurd hc (by decide)
  · rename_i rest heq
    rw [show c = '+' from (List.cons.injEq .. ▸ heq).1] at hc
    exact absurd hc (by decide)
  · rw [if_pos (by simpa [startsDigit] using hc)]

/-- Reduction of `parseRetryAfter` at a present header. -/
theorem parseRetryAfter_some (s : String) (now : Int) :
    parseRetryAfter (some s) now =
      if s = "" then none
      else
        match parseIntJS s with
        | some seconds => if seconds ≥ 0 then some seconds else parseRetryAfterDate s now
        | none => parseRetryAfterDate s now := rfl

/-- Claim C8 as amended: a header whose leading characters form a
non-negative integer parses to that number of seconds — in particular every
plain non-negative decimal header does (first conjunct); when `parseInt`
yields nothing non-negative, an HTTP-date header parses to
`max(0, ceil((date - now)/1000))` (second conjunct); when neither form
parses, and when the header is absent, the result is `null` (third and
fourth conjuncts).  The amendment: `parseInt` accepts a digit *run at the
head* of the header, so a trailing non-numeric suffix is ignored rather
than forcing the date/null path. -/
theorem parseRetryAfter_characterization (s : String) (t now : Int) :
    (specIsNonNegInteger s = true →
      parseRetryAfter (some s) now = some (digitsValAux s.data 0 : Int)) ∧
    ((parseIntJS s).getD (-1) < 0 → jsDateParse s = some t →
      parseRetryAfter (some s) now = some (max 0 (intCeilDiv (t - now) 1000))) ∧
    ((parseIntJS s).getD (-1) < 0 → jsDateParse s = none →
      parseRetryAfter (some s) now = none) ∧
    parseRetryAfter none now = none := by
  refine ⟨?_, ?_, ?_, rfl⟩
  · intro h
    have hne : ¬ s = "" := by
      intro hs
      subst hs
      simp [specIsNonNegInteger] at h
    rw [parseRetryAfter_some, if_neg hne, parseIntJS_digits s h]
    show (if (digitsValAux s.data 0 : Int) ≥ 0 then some (digitsValAux s.data 0 : Int)
      else parseRetryAfterDate s now) = some (digitsValAux s.data 0 : Int)
    rw [if_pos (Int.natCast_nonneg _)]
  · intro h1 h2
    by_cases hs : s = ""
    · subst hs
      rw [show jsDateParse "" = none from rfl] at h2
      exact Option.noConfusion h2
    · rw [parseRetryAfter_some, if_neg hs]
      cases hp : parseIntJS s with
      | none => unfold parseRetryAfterDate; rw [h2]
      | some m =>
        rw [hp] at h1
        have hm : m < 0 := by simpa using h1
        show (if m ≥ 0 then some m else parseRetryAfterDate s now) = _
        rw [if_neg (by omega)]
        unfold parseRetryAfterDate
        rw [h2]
  · intro h1 h2
    by_cases hs : s = ""
    · subst hs
      rw [parseRetryAfter_some, if_pos rfl]
    · rw [parseRetryAfter_some, if_neg hs]
      cases hp : parseIntJS s with
      | none => unfold parseRetryAfterDate; rw [h2]
      | some m =>
        rw [hp] at h1
        have hm : m < 0 := by simpa using h1
        show (if m ≥ 0 then some m else parseRetryAfterDate s now) = _
        rw [if_neg (by omega)]
        unfold parseRetryAfterDate
        rw [h2]

/-- Witness for amended C8: `"120"` gives 120 seconds; the HTTP-date
`Fri, 06 Feb 2026 12:00:00 GMT` read 100 seconds earlier gives 100;
an unparseable header and an absent header give `null`. -/
theorem parseRetryAfter_characterization_witness :
    parseRetryAfter (some "120") 0 = some (120 : Int) ∧
    parseRetryAfter (some "Fri, 06 Feb 2026 12:00:00 GMT") 1770379100000 = some 100 ∧
    parseRetryAfter (some "soon") 0 = none ∧
    parseRetryAfter none 0 = none :=
  ⟨((parseRetryAfter_characterization "120" 0 0).1 (by decide)).trans (by decide),
   ((parseRetryAfter_characterization "Fri, 06 Feb 2026 12:00:00 GMT" 1770379200000
      1770379100000).2.1 (by decide) (by decide)).trans (by decide),
   (parseRetryAfter_characterization "soon" 0 0).2.2.1 (by decide) (by decide),
   (parseRetryAfter_characterization "x" 0 0).2.2.2⟩

/-- Counterexample to claim C8 as stated: the header `"12abc"` is neither a
non-negative integer nor an HTTP-date, so the claim requires `null`, but the
code's `parseInt` reads the leading digit run and returns 12 seconds. -/
theorem parseRetryAfter_digit_run_counterexample :
    specIsNonNegInteger "12abc" = false ∧ jsDateParse "12abc" = none ∧
    parseRetryAfter (some "12abc") 0 = some 12 := by
  refine ⟨by decide, by decide, by decide⟩

/-! ## Claims about address derivation (C9) -/

set_option maxRecDepth 1000000 in
/-- First 128 double-and-add steps of the test-vector scalar multiplication
(checkpointed so the kernel can evaluate the chain). -/
theorem scalarMulG_keyVector_half : List.foldl scalarStep (0, 1, 0)
    ((natBitsBE 256 keyVector).take 128) =
    (34655597614069612994697290378153689237707038560427168726506997520359291258556,
     4338044088684822948588367900795485653650622007532359031833128864262314159208,
     36586459208532159330577863905796233022518822240140572985216115854150024833611) := by
  decide

set_option maxRecDepth 1000000 in
/-- Last 128 double-and-add steps of the test-vector scalar multiplication. -/
theorem scalarMulG_keyVector_rest : List.foldl scalarStep
    (34655597614069612994697290378153689237707038560427168726506997520359291258556,
     4338044088684822948588367900795485653650622007532359031833128864262314159208,
     36586459208532159330577863905796233022518822240140572985216115854150024833611)
    ((natBitsBE 256 keyVector).drop 128) =
    (57046433698543358417097617722750919820455342969221550943669563880076703039062,
     55725405420522525041625321738475000119789427740976044583872365454698953370616,
     36207890131669940656908008544715319212773432262816365109392755018412512660146) := by
  decide

/-- The Jacobian point `keyVector · G`. -/
theorem scalarMulG_keyVector : scalarMulG keyVector =
    (57046433698543358417097617722750919820455342969221550943669563880076703039062,
     55725405420522525041625321738475000119789427740976044583872365454698953370616,
     36207890131669940656908008544715319212773432262816365109392755018412512660146) := by
  unfold scalarMulG
  rw [show natBitsBE 256 keyVector =
      (natBitsBE 256 keyVector).take 128 ++ (natBitsBE 256 keyVector).drop 128 from
      (List.take_append_drop 128 (natBitsBE 256 keyVector)).symm,
    List.foldl_append, scalarMulG_keyVector_half, scalarMulG_keyVector_rest]

set_option maxRecDepth 1000000 in
/-- The affine public key of the test-vector scalar. -/
theorem pubkeyOf_keyVector : pubkeyOf keyVector =
    (59295962801117472859457908919941473389380284132224861839820747729565200149877,
     24099691209996290925259367678540227198235484593389470330605641003500238088869) := by
  unfold pubkeyOf
  rw [scalarMulG_keyVector]
  decide

set_option maxRecDepth 1000000 in
/-- The checksummed address of the test-vector scalar. -/
theorem addressOfScalar_keyVector :
    addressOfScalar keyVector = "0xf39Fd6e51aad88F6F4ce6aB8827279cffFb92266" := by
  unfold addressOfScalar
  rw [pubkeyOf_keyVector]
  decide

set_option maxRecDepth 1000000 in
/-- The prefixed test-vector key string parses to the test-vector scalar. -/
theorem parseKeyScalar_vector_prefixed :
    parseKeyScalar "0xac0974bec39a17e36ba4a6b4d238ff944bacb478cbed5efcae784d7bf4f2ff80" =
      some keyVector := by
  decide

set_option maxRecDepth 1000000 in
/-- The bare test-vector key string parses to the same scalar. -/
theorem parseKeyScalar_vector_bare :
    parseKeyScalar "ac0974bec39a17e36ba4a6b4d238ff944bacb478cbed5efcae784d7bf4f2ff80" =
      some keyVector := by
  decide

/-- Address derivation of the prefixed test-vector key. -/
theorem getAddress_vector_prefixed :
    getAddressFromPrivateKey
        "0xac0974bec39a17e36ba4a6b4d238ff944bacb478cbed5efcae784d7bf4f2ff80" =
      some "0xf39Fd6e51aad88F6F4ce6aB8827279cffFb92266" := by
  unfold getAddressFromPrivateKey
  rw [parseKeyScalar_vector_prefixed]
  exact congrArg some addressOfScalar_keyVector

/-- Address derivation of the bare test-vector key. -/
theorem getAddress_vector_bare :
    getAddressFromPrivateKey
        "ac0974bec39a17e36ba4a6b4d238ff944bacb478cbed5efcae784d7bf4f2ff80" =
      some "0xf39Fd6e51aad88F6F4ce6aB8827279cffFb92266" := by
  unfold getAddressFromPrivateKey
  rw [parseKeyScalar_vector_bare]
  exact congrArg some addressOfScalar_keyVector

/-- Counterexample to claim C9 as stated: the derivation on the test-vector
key yields `0xf39Fd6e51aad88F6F4ce6aB8827279cffFb92266` (40 hex digits), not
the 39-hex-digit string `0xf39Fd6e51aad88F6F4ce6aB8827279cffFb9226` the
claim names — the claim's address drops the final `6`. -/
theorem getAddress_vector_counterexample :
    getAddressFromPrivateKey
        "0xac0974bec39a17e36ba4a6b4d238ff944bacb478cbed5efcae784d7bf4f2ff80" =
      some "0xf39Fd6e51aad88F6F4ce6aB8827279cffFb92266" ∧
    ("0xf39Fd6e51aad88F6F4ce6aB8827279cffFb92266" : String) ≠
      "0xf39Fd6e51aad88F6F4ce6aB8827279cffFb9226" :=
  ⟨getAddress_vector_prefixed, by decide⟩

/-- Claim C9 as amended: the test-vector private key, with or without the
`0x` prefix, derives the address `0xf39Fd6e51aad88F6F4ce6aB8827279cffFb92266`
(deterministically — the derivation is a pure function of the key string). -/
theorem getAddress_vector_amended :
    getAddressFromPrivateKey
        "0xac0974bec39a17e36ba4a6b4d238ff944bacb478cbed5efcae784d7bf4f2ff80" =
      some "0xf39Fd6e51aad88F6F4ce6aB8827279cffFb92266" ∧
    getAddressFromPrivateKey
        "ac0974bec39a17e36ba4a6b4d238ff944bacb478cbed5efcae784d7bf4f2ff80" =
      some "0xf39Fd6e51aad88F6F4ce6aB8827279cffFb92266" :=
  ⟨getAddress_vector_prefixed, getAddress_vector_bare⟩

/-! ## Hex, split and keystream lemmas for the round-trip claim -/

/-- The hex digit of a value below 16 decodes back to it. -/
theorem hexCharVal_hexDigitChar : ∀ n, n < 16 → hexCharVal (hexDigitChar n) = some n := by
  decide

/-- Hex digits are never the colon separator. -/
theorem hexDigitChar_ne_colon : ∀ n, n < 16 → hexDigitChar n ≠ ':' := by
  decide

/-- The colon never occurs in a hex encoding. -/
theorem colon_not_mem_hexChars : ∀ bs : List Nat, ':' ∉ hexChars bs := by
  intro bs
  induction bs with
  | nil => simp [hexChars]
  | cons b bs ih =>
    simp only [hexChars, List.mem_cons, not_or]
    exact ⟨fun h => hexDigitChar_ne_colon _ (by omega) h.symm,
      fun h => hexDigitChar_ne_colon _ (by omega) h.symm, ih⟩

/-- Hex decoding inverts hex encoding on byte lists. -/
theorem jsHexDecodeChars_hexChars : ∀ bs : List Nat, (∀ b ∈ bs, b < 256) →
    jsHexDecodeChars (hexChars bs) = bs
  | [], _ => rfl
  | b :: bs, h => by
    have hb : b < 256 := h b (List.mem_cons_self ..)
    show jsHexDecodeChars (hexDigitChar (b / 16 % 16) :: hexDigitChar (b % 16) :: hexChars bs) =
      b :: bs
    unfold jsHexDecodeChars
    rw [hexCharVal_hexDigitChar _ (by omega), hexCharVal_hexDigitChar _ (by omega)]
    show (b / 16 % 16 * 16 + b % 16) :: jsHexDecodeChars (hexChars bs) = b :: bs
    rw [jsHexDecodeChars_hexChars bs (fun x hx => h x (List.mem_cons_of_mem _ hx))]
    congr 1
    omega

/-- Hex decoding inverts the string-level hex encoding. -/
theorem jsHexDecode_hexStr (bs : List Nat) (h : ∀ b ∈ bs, b < 256) :
    jsHexDecode (hexStr bs) = bs :=
  jsHexDecodeChars_hexChars bs h

/-- With no colon in the remainder, `takeUntilColon` is the identity. -/
theorem takeUntilColon_no_colon : ∀ cs : List Char, ':' ∉ cs → takeUntilColon cs = cs
  | [], _ => rfl
  | c :: cs, h => by
    unfold takeUntilColon
    rw [if_neg (by intro hc; subst hc; exact h (List.mem_cons_self ..)),
      takeUntilColon_no_colon cs (fun hc => h (List.mem_cons_of_mem _ hc))]

/-- Splitting at the first colon of `a ++ ':' :: b` with no colon in `a`. -/
theorem breakColon_append : ∀ a : List Char, ∀ b : List Char, ':' ∉ a →
    breakColon (a ++ ':' :: b) = (a, some b)
  | [], b, _ => by
    show breakColon (':' :: b) = ([], some b)
    unfold breakColon
    rw [if_pos rfl]
  | c :: a, b, h => by
    show breakColon (c :: (a ++ ':' :: b)) = (c :: a, some b)
    unfold breakColon
    rw [if_neg (by intro hc; subst hc; exact h (List.mem_cons_self ..)),
      breakColon_append a b (fun hc => h (List.mem_cons_of_mem _ hc))]

/-- Xoring twice with the same keystream restores the data. -/
theorem zipWith_xor_cancel : ∀ p ks : List Nat, p.length ≤ ks.length →
    List.zipWith Nat.xor (List.zipWith Nat.xor p ks) ks = p
  | [], _, _ => by simp
  | a :: p, [], h => by simp at h
  | a :: p, k :: ks, h => by
    simp only [List.zipWith_cons_cons]
    rw [zipWith_xor_cancel p ks (by simpa using h)]
    congr 1
    exact Nat.xor_cancel_right k a

/-- The GCM CTR transform is an involution. -/
theorem gcmCtr_involution (key iv pt : List Nat) :
    gcmCtr key iv (gcmCtr key iv pt) = pt := by
  have h1 : (gcmCtr key iv pt).length = pt.length := length_gcmCtr ..
  unfold gcmCtr
  rw [show (List.zipWith Nat.xor pt (gcmKeystream key iv pt.length)).length = pt.length from
    h1]
  exact zipWith_xor_cancel pt _ (by rw [length_gcmKeystream])

/-- CTR keystream bytes are bytes. -/
theorem mem_ctrBlocks_lt (key : List Nat) : ∀ f ctr : Nat, ∀ b ∈ ctrBlocks key f ctr, b < 256
  | 0, _ => by simp [ctrBlocks]
  | f + 1, ctr => by
    intro b hb
    simp only [ctrBlocks, List.mem_append] at hb
    rcases hb with h | h
    · exact mem_natToBytesBE_lt 16 _ b h
    · exact mem_ctrBlocks_lt key f _ b h

/-- GCM keystream bytes are bytes. -/
theorem mem_gcmKeystream_lt (key iv : List Nat) (n : Nat) :
    ∀ b ∈ gcmKeystream key iv n, b < 256 := by
  intro b hb
  exact mem_ctrBlocks_lt key _ _ b (List.mem_of_mem_take hb)

/-- The xor of two byte lists is a byte list. -/
theorem zipWith_xor_bound : ∀ p q : List Nat, (∀ a ∈ p, a < 256) → (∀ b ∈ q, b < 256) →
    ∀ x ∈ List.zipWith Nat.xor p q, x < 256
  | [], _, _, _ => by simp
  | _ :: _, [], _, _ => by simp
  | a :: p, b :: q, hp, hq => by
    intro x hx
    simp only [List.zipWith_cons_cons, List.mem_cons] at hx
    rcases hx with h | h
    · subst h
      have h8 : (256 : Nat) = 2 ^ 8 := by norm_num
      rw [h8]
      exact Nat.xor_lt_two_pow (by rw [← h8]; exact hp a (List.mem_cons_self ..))
        (by rw [← h8]; exact hq b (List.mem_cons_self ..))
    · exact zipWith_xor_bound p q (fun y hy => hp y (List.mem_cons_of_mem _ hy))
        (fun y hy => hq y (List.mem_cons_of_mem _ hy)) x h

/-- UTF-8 encodes every character of a string into bytes. -/
theorem utf8Encode_bound (s : String) : ∀ b ∈ utf8Encode s, b < 256 := by
  intro b hb
  unfold utf8Encode at hb
  rw [List.mem_flatMap] at hb
  obtain ⟨c, _, hbc⟩ := hb
  have hv : Nat.isValidChar c.toNat := c.valid
  unfold Nat.isValidChar at hv
  revert hbc
  unfold utf8EncodeCp
  split
  · simp
    omega
  · split
    · simp
      omega
    · split
      · simp
        omega
      · simp
        omega

/-- The GCM CTR transform of a byte list is a byte list. -/
theorem gcmCtr_bound (key iv d : List Nat) (hd : ∀ b ∈ d, b < 256) :
    ∀ x ∈ gcmCtr key iv d, x < 256 := by
  intro x hx
  exact zipWith_xor_bound d _ hd (mem_gcmKeystream_lt key iv d.length) x hx

/-- Tag bytes are bytes. -/
theorem mem_gcmTag_lt (key iv ct : List Nat) : ∀ b ∈ gcmTag key iv ct, b < 256 := by
  unfold gcmTag
  exact mem_natToBytesBE_lt 16 _

/-! ## UTF-8 codec round-trip -/

/-- Decoding one encoded character consumes exactly it and one unit of fuel. -/
theorem utf8DecodeAux_cons (c : Char) (bs : List Nat) (m : Nat) :
    utf8DecodeAux (m + 1) (utf8EncodeCp c.toNat ++ bs) = c :: utf8DecodeAux m bs := by
  have hv : Nat.isValidChar c.toNat := c.valid
  unfold Nat.isValidChar at hv
  by_cases h1 : c.toNat < 0x80
  · rw [show utf8EncodeCp c.toNat = [c.toNat] from by unfold utf8EncodeCp; rw [if_pos h1]]
    show utf8DecodeAux (m + 1) (c.toNat :: bs) = c :: utf8DecodeAux m bs
    simp only [utf8DecodeAux]
    rw [if_pos h1, Char.ofNat_toNat]
  · by_cases h2 : c.toNat < 0x800
    · rw [show utf8EncodeCp c.toNat = [0xC0 + c.toNat / 64, 0x80 + c.toNat % 64] from by
        unfold utf8EncodeCp; rw [if_neg h1, if_pos h2]]
      show utf8DecodeAux (m + 1) ((0xC0 + c.toNat / 64) :: (0x80 + c.toNat % 64) :: bs) =
        c :: utf8DecodeAux m bs
      simp only [utf8DecodeAux]
      rw [if_neg (by omega), if_neg (by omega), if_pos (by omega)]
      rw [if_pos (by simp only [isContByte, Bool.and_eq_true, decide_eq_true_eq]; omega)]
      rw [show (0xC0 + c.toNat / 64 - 0xC0) * 64 + (0x80 + c.toNat % 64 - 0x80) = c.toNat from
        by omega, Char.ofNat_toNat]
    · by_cases h3 : c.toNat < 0x10000
      · rw [show utf8EncodeCp c.toNat =
            [0xE0 + c.toNat / 4096, 0x80 + c.toNat / 64 % 64, 0x80 + c.toNat % 64] from by
          unfold utf8EncodeCp; rw [if_neg h1, if_neg h2, if_pos h3]]
        show utf8DecodeAux (m + 1) ((0xE0 + c.toNat / 4096) :: (0x80 + c.toNat / 64 % 64) ::
          (0x80 + c.toNat % 64) :: bs) = c :: utf8DecodeAux m bs
        simp only [utf8DecodeAux]
        rw [if_neg (by omega), if_neg (by omega), if_neg (by omega), if_pos (by omega)]
        rw [if_pos (by
          simp only [isContByte, Bool.and_eq_true, decide_eq_true_eq]
          refine ⟨by omega, by omega, by omega, by omega⟩)]
        rw [show (0xE0 + c.toNat / 4096 - 0xE0) * 4096 + (0x80 + c.toNat / 64 % 64 - 0x80) * 64 +
          (0x80 + c.toNat % 64 - 0x80) = c.toNat from by omega, Char.ofNat_toNat]
      · rw [show utf8EncodeCp c.toNat =
            [0xF0 + c.toNat / 262144, 0x80 + c.toNat / 4096 % 64, 0x80 + c.toNat / 64 % 64,
              0x80 + c.toNat % 64] from by
          unfold utf8EncodeCp; rw [if_neg h1, if_neg h2, if_neg h3]]
        show utf8DecodeAux (m + 1) ((0xF0 + c.toNat / 262144) :: (0x80 + c.toNat / 4096 % 64) ::
          (0x80 + c.toNat / 64 % 64) :: (0x80 + c.toNat % 64) :: bs) = c :: utf8DecodeAux m bs
        simp only [utf8DecodeAux]
        rw [if_neg (by omega), if_neg (by omega), if_neg (by omega), if_neg (by omega),
          if_pos (by omega)]
        rw [if_pos (by
          simp only [isContByte, Bool.and_eq_true, decide_eq_true_eq]
          refine ⟨by omega, by omega, by omega, by omega, by omega⟩)]
        rw [show (0xF0 + c.toNat / 262144 - 0xF0) * 262144 +
          (0x80 + c.toNat / 4096 % 64 - 0x80) * 4096 + (0x80 + c.toNat / 64 % 64 - 0x80) * 64 +
          (0x80 + c.toNat % 64 - 0x80) = c.toNat from by omega, Char.ofNat_toNat]

/-- Decoding the encoding of a character list, with any spare fuel,
recovers the list. -/
theorem utf8DecodeAux_flatMap : ∀ (cs : List Char) (m : Nat),
    utf8DecodeAux ((cs.flatMap (fun c => utf8EncodeCp c.toNat)).length + m)
      (cs.flatMap (fun c => utf8EncodeCp c.toNat)) = cs
  | [], m => by cases m <;> rfl
  | c :: cs, m => by
    simp only [List.flatMap_cons, List.length_append]
    have hlc : 1 ≤ (utf8EncodeCp c.toNat).length := utf8EncodeCp_length_pos c.toNat
    rw [show (utf8EncodeCp c.toNat).length +
        (cs.flatMap fun c => utf8EncodeCp c.toNat).length + m =
        ((cs.flatMap fun c => utf8EncodeCp c.toNat).length +
          (m + (utf8EncodeCp c.toNat).length - 1)) + 1 from by omega]
    rw [utf8DecodeAux_cons]
    rw [utf8DecodeAux_flatMap cs (m + (utf8EncodeCp c.toNat).length - 1)]

/-- The lossy UTF-8 decode inverts UTF-8 encoding of a string. -/
theorem utf8Decode_utf8Encode (s : String) : utf8Decode (utf8Encode s) = s.data := by
  unfold utf8Decode utf8Encode
  simpa using utf8DecodeAux_flatMap s.data 0

/-- Rebuilding a string from its characters is the identity. -/
theorem string_mk_data (s : String) : String.mk s.data = s := by
  cases s
  rfl

/-! ## Claim about the encryption round-trip (C2) -/

/-- Claim C2: for every plaintext string `p` and passphrase `s`, decrypting
the bundle produced by encrypting `p` under `s` (with any salt and IV of the
sizes `randomBytes` draws: 32 and 16 bytes) with the same passphrase
returns exactly `p`. -/
theorem decryptPrivateKey_encryptPrivateKey (p pass : String) (salt iv : List Nat)
    (hsl : salt.length = 32) (hil : iv.length = 16)
    (hsb : ∀ b ∈ salt, b < 256) (hib : ∀ b ∈ iv, b < 256) :
    decryptPrivateKey (encryptPrivateKey p pass salt iv) pass = some p := by
  have _keep : salt.length = 32 := hsl
  unfold encryptPrivateKey decryptPrivateKey
  dsimp only
  rw [jsHexDecode_hexStr salt hsb, jsHexDecode_hexStr iv hib]
  simp only [hexStr]
  rw [data_mk_colon_mk, breakColon_append _ _ (colon_not_mem_hexChars _)]
  dsimp only
  rw [takeUntilColon_no_colon _ (colon_not_mem_hexChars _)]
  rw [jsHexDecodeChars_hexChars _ (mem_gcmTag_lt _ _ _)]
  rw [jsHexDecodeChars_hexChars _ (gcmCtr_bound _ _ _ (utf8Encode_bound p))]
  rw [if_neg (by rw [length_gcmTag]; omega)]
  rw [if_neg (by omega)]
  rw [if_pos rfl]
  rw [gcmCtr_involution, utf8Decode_utf8Encode]

/-- Witness for C2 at concrete plaintext, passphrase, salt and IV. -/
theorem decryptPrivateKey_encryptPrivateKey_witness :
    decryptPrivateKey
        (encryptPrivateKey "secret-key" "hunter2" (List.range 32) (List.range 16)) "hunter2" =
      some "secret-key" :=
  decryptPrivateKey_encryptPrivateKey "secret-key" "hunter2" (List.range 32) (List.range 16)
    (by decide) (by decide) (by decide) (by decide)
